import Mathlib

/-!
Verification of the Browser Code virtual filesystem and agent loop.

This development is a shallow embedding of the TypeScript sources:
  - the route matcher (parseRoutePattern / matchRoute / findMatchingRoutes),
  - the persistent VFS storage (VFSStorage.writeFile and friends),
  - the VirtualFS facade (parsePath / read / write / edit),
  - the agent loop (runAgent with its 500-turn cap),
  - the user-script reconciler (syncUserScripts).

JavaScript strings are modeled as Lean String values; the char-level
operations (split, join, slice) are re-implemented structurally so that
all definitions are executable by kernel reduction.  JavaScript numbers
that are only ever used as non-negative integers (versions, timestamps,
offsets, counts) are modeled as Nat.
-/

namespace BrowserCode

/-- JavaScript s.split(sep) for a single-character separator, on char lists.
"".split gives [""], and separators at the ends give empty components,
exactly as in JavaScript. -/
def splitOnChar (sep : Char) : List Char → List (List Char)
  | [] => [[]]
  | c :: rest =>
    if c = sep then [] :: splitOnChar sep rest
    else
      match splitOnChar sep rest with
      | [] => [[c]]
      | g :: gs => (c :: g) :: gs

/-- JavaScript s.split(sep) on strings. -/
def jsSplit (sep : Char) (s : String) : List String :=
  (splitOnChar sep s.data).map (fun cs => String.mk cs)

/-- JavaScript parts.join(sep) for a one-character separator string. -/
def jsJoin (sep : Char) : List String → String
  | [] => ""
  | [x] => x
  | x :: xs => x ++ String.mk [sep] ++ jsJoin sep xs

/-- JavaScript arr.slice(start, end?) for non-negative start and end:
elements with indices in [start, end), or the whole suffix from start
when end is undefined. -/
def jsSlice {α : Type} (xs : List α) (start : Nat) (stop : Option Nat) : List α :=
  match stop with
  | none => xs.drop start
  | some e => (xs.take e).drop start

/-- Number of slash characters in a char list (used for route-matching bounds). -/
def countSlash (cs : List Char) : Nat := cs.count '/'

/-- JavaScript word character, the \w character class: [A-Za-z0-9_]. -/
def isWordChar (c : Char) : Bool :=
  (('a' ≤ c ∧ c ≤ 'z') ∨ ('A' ≤ c ∧ c ≤ 'Z') ∨ ('0' ≤ c ∧ c ≤ '9') ∨ c = '_')

/--
normalizePath from storage.ts / collector.ts:
trailing slashes are removed (the regex replace of /\/+$/ with the empty
string), except that "/" and "" normalize to "/".
Note "//" normalizes to "" (every character is a trailing slash).
-/
def normalizePath (p : String) : String :=
  if p = "/" ∨ p = "" then "/"
  else String.mk ((p.data.reverse.dropWhile (fun c => c = '/')).reverse)

end BrowserCode

namespace BrowserCode.RouteMatcher

/-- One segment of a parsed route pattern.  A static segment carries its
literal text; dynamic segments and catch-alls carry the parameter name. -/
inductive Seg where
  | static (s : String)
  | dyn (name : String)
  | catchAll (name : String)
deriving Repr, DecidableEq

def Seg.isStatic : Seg → Bool
  | .static _ => true
  | _ => false

def Seg.isDyn : Seg → Bool
  | .dyn _ => true
  | _ => false

def Seg.isCatchAllSeg : Seg → Bool
  | .catchAll _ => true
  | _ => false

def Seg.isDynamicSeg : Seg → Bool
  | .dyn _ => true
  | .catchAll _ => true
  | _ => false

/-- The regex test for a catch-all segment, /^\[\.\.\.(\w+)\]$/ :
an opening bracket, three dots, a non-empty word-character name, and a
closing bracket. -/
def parseCatchAllSeg (cs : List Char) : Option String :=
  match cs with
  | '[' :: '.' :: '.' :: '.' :: rest =>
    match rest.getLast? with
    | some ']' =>
      let core := rest.dropLast
      if core ≠ [] ∧ core.all isWordChar then some (String.mk core) else none
    | _ => none
  | _ => none

/-- The regex test for a dynamic segment, /^\[(\w+)\]$/ . -/
def parseDynSeg (cs : List Char) : Option String :=
  match cs with
  | '[' :: rest =>
    match rest.getLast? with
    | some ']' =>
      let core := rest.dropLast
      if core ≠ [] ∧ core.all isWordChar then some (String.mk core) else none
    | _ => none
  | _ => none

/-- Classify one pattern segment the way the parseRoutePattern loop does:
catch-all first, then dynamic, else static. -/
def classifySeg (cs : List Char) : Seg :=
  match parseCatchAllSeg cs with
  | some name => .catchAll name
  | none =>
    match parseDynSeg cs with
    | some name => .dyn name
    | none => .static (String.mk cs)

/-- Parsed route pattern (route-matcher RoutePattern).  The compiled regex
is represented by segs plus the isCatchAll flag: each static segment
stands for the regex part "/" ++ escaped literal, each dynamic segment
for "/([^/]+)", each catch-all for "/(.+)", and the regex ends with
an optional slash and the end anchor for non-catch-alls and with the bare
end anchor for catch-alls. -/
structure RoutePattern where
  pattern : String
  segs : List Seg
  paramNames : List String
  isCatchAll : Bool
  staticSegmentCount : Nat
  dynamicSegmentCount : Nat
deriving Repr, DecidableEq

/-- parseRoutePattern from the route matcher: split the pattern on "/",
drop empty components (filter(Boolean)), classify each segment, and record
parameter names, the catch-all flag and the static/dynamic counts. -/
def parseRoutePattern (p : String) : RoutePattern :=
  let comps := (splitOnChar '/' p.data).filter (fun c => c ≠ [])
  let segs := comps.map classifySeg
  { pattern := p
    segs := segs
    paramNames := segs.filterMap (fun s =>
      match s with
      | .dyn n => some n
      | .catchAll n => some n
      | .static _ => none)
    isCatchAll := segs.any Seg.isCatchAllSeg
    staticSegmentCount := segs.countP (fun s => s.isStatic)
    dynamicSegmentCount := segs.countP (fun s => s.isDynamicSeg) }

/-- The regex items actually emitted: for an empty segment list the source
pushes a lone "/" (the root pattern), which behaves like a static segment
with empty text. -/
def RoutePattern.items (rp : RoutePattern) : List Seg :=
  if rp.segs = [] then [.static ""] else rp.segs

/-- End of the compiled regex: "$" after an optional "/" for non-catch-all
patterns ("/?$"), bare "$" for catch-alls. -/
def matchEnd (optSlash : Bool) (cs : List Char) : Bool :=
  cs = [] ∨ (optSlash ∧ cs = ['/'])

/--
Matching of the compiled regex against a char list.  Each item consumes a
leading slash; a static item then consumes its literal text, a dynamic
item consumes one or more non-slash characters, and a catch-all consumes
one or more arbitrary characters.  Regex matching is existential in the
amount consumed by the groups (the engine backtracks), which the List.any
over all split points expresses.
-/
def matchSegs : List Seg → Bool → List Char → Bool
  | [], optSlash, cs => matchEnd optSlash cs
  | seg :: rest, optSlash, cs =>
    match cs with
    | [] => false
    | c :: cs2 =>
      if c = '/' then
        match seg with
        | .static s => s.data.isPrefixOf cs2 ∧ matchSegs rest optSlash (cs2.drop s.data.length)
        | .dyn _ =>
          (List.range (cs2.takeWhile (fun c2 => ¬ (c2 = '/'))).length).any
            (fun i => matchSegs rest optSlash (cs2.drop (i + 1)))
        | .catchAll _ =>
          (List.range cs2.length).any
            (fun i => matchSegs rest optSlash (cs2.drop (i + 1)))
      else false

/-- calculateScore from the route matcher: exact patterns score
1000 + 10 per static segment; otherwise 10 per static segment, 5 per
non-catch-all dynamic segment, and 1 for a catch-all. -/
def calculateScore (rp : RoutePattern) : Nat :=
  if rp.paramNames = [] then
    1000 + rp.staticSegmentCount * 10
  else
    rp.staticSegmentCount * 10 +
      (rp.dynamicSegmentCount - (if rp.isCatchAll then 1 else 0)) * 5 +
      (if rp.isCatchAll then 1 else 0)

/-- Result of matching a url path against one pattern.  The source also
extracts the parameter values here; no claim mentions them, so the model
keeps only the pattern and its priority score. -/
structure RouteMatch where
  pattern : String
  score : Nat
deriving Repr, DecidableEq

/-- matchRoute: test the compiled regex; on success return the pattern
with its priority score. -/
def matchRoute (urlPath : String) (rp : RoutePattern) : Option RouteMatch :=
  if matchSegs rp.items (¬ rp.isCatchAll) urlPath.data then
    some { pattern := rp.pattern, score := calculateScore rp }
  else
    none

/-- The pre-sort match list: every stored path whose compiled pattern
matches, in storage (insertion) order. -/
def matchList (urlPath : String) (storedPaths : List String) : List RouteMatch :=
  storedPaths.filterMap (fun sp => matchRoute urlPath (parseRoutePattern sp))

/-- The comparator matches.sort((a, b) => b.score - a.score): a sorts
before b exactly when b.score ≤ a.score.  Array.prototype.sort is a
stable sort, which insertionSort with this relation is. -/
def scoreGE (a b : RouteMatch) : Prop := b.score ≤ a.score

instance : DecidableRel scoreGE := fun a b => Nat.decLe b.score a.score

/-- findMatchingRoutes: collect all matches in stored order, then sort by
score, highest first, stably. -/
def findMatchingRoutes (urlPath : String) (storedPaths : List String) : List RouteMatch :=
  List.insertionSort scoreGE (matchList urlPath storedPaths)

end BrowserCode.RouteMatcher

namespace BrowserCode

/-- The VFS file kinds (vfs/types.ts FileType, plus the plan and generic
file kinds used by the current collector/storage sources). -/
inductive FileType where
  | page
  | script
  | style
  | console
  | screenshot
  | plan
  | file
deriving Repr, DecidableEq

/-- The storage-collection name of a file type (used in error paths,
"scripts" / "styles" / "files"). -/
def FileType.str : FileType → String
  | .page => "page"
  | .script => "script"
  | .style => "style"
  | .console => "console"
  | .screenshot => "screenshot"
  | .plan => "plan"
  | .file => "file"

/-- VFS error codes (vfs/types.ts VFSError code field). -/
inductive ErrorCode where
  | NOT_FOUND
  | VERSION_MISMATCH
  | INVALID_PATH
  | PERMISSION_DENIED
deriving Repr, DecidableEq

/-- vfs/types.ts VFSError. -/
structure VFSError where
  code : ErrorCode
  message : String
  path : String
  expectedVersion : Option Nat := none
  actualVersion : Option Nat := none
deriving Repr, DecidableEq

/-- vfs/types.ts StoredFile.  The enabled flag is optional in the source
(absent means enabled); writeFile stores objects without the flag. -/
structure StoredFile where
  content : String
  version : Nat
  created : Nat
  modified : Nat
  enabled : Option Bool := none
deriving Repr, DecidableEq

/-- vfs/types.ts EditRecord. -/
structure EditRecord where
  selector : String
  oldContent : String
  newContent : String
  timestamp : Nat
deriving Repr, DecidableEq

/-- A JavaScript object used as a string-keyed dictionary, modeled as an
association list in key-insertion order (JavaScript preserves insertion
order for string keys). -/
abbrev JsObj (α : Type) : Type := List (String × α)

/-- Property read: the value at a key, if present. -/
def objGet {α : Type} : JsObj α → String → Option α
  | [], _ => none
  | (k2, v) :: rest, k => if k2 = k then some v else objGet rest k

/-- Property write: updates the value in place if the key is present,
otherwise appends the new key (JavaScript object-assignment semantics;
object keys are unique). -/
def objSet {α : Type} : JsObj α → String → α → JsObj α
  | [], k, v => [(k, v)]
  | (k2, v2) :: rest, k, v =>
    if k2 = k then (k, v) :: rest else (k2, v2) :: objSet rest k v

/-- The keys of a JavaScript object in insertion order (Object.keys). -/
def objKeys {α : Type} (m : JsObj α) : List String := m.map (fun p => p.1)

/-- The per-urlPath record held by a domain store.  The files collection
is always present in the model; the source adds it lazily to old stored
data (the ensurePath migration), which a typed model cannot observe. -/
structure PathData where
  scripts : JsObj StoredFile
  styles : JsObj StoredFile
  files : JsObj StoredFile
  editRecords : List EditRecord
deriving Repr, DecidableEq

def emptyPathData : PathData :=
  { scripts := [], styles := [], files := [], editRecords := [] }

/-- vfs/types.ts DomainStorage: urlPath → PathData. -/
structure DomainStorage where
  paths : JsObj PathData
deriving Repr, DecidableEq

/-- JavaScript (a || b) on numbers: 0 is falsy. -/
def jsOrZero (a b : Nat) : Nat := if a = 0 then b else a

/-- JavaScript (urlPath || defaultUrlPath): the empty string is falsy. -/
def jsOrElse (urlPath : Option String) (d : String) : String :=
  match urlPath with
  | none => d
  | some u => if u = "" then d else u

end BrowserCode

namespace BrowserCode.VFSStorage

open BrowserCode

/-- getFileCollection: scripts for script files, styles for style files,
files for generic files; any other type throws (modeled as none). -/
def getFileCollection (pd : PathData) : FileType → Option (JsObj StoredFile)
  | .script => some pd.scripts
  | .style => some pd.styles
  | .file => some pd.files
  | _ => none

/-- Replace the collection selected by getFileCollection. -/
def setFileCollection (pd : PathData) (ty : FileType) (c : JsObj StoredFile) : PathData :=
  match ty with
  | .script => { pd with scripts := c }
  | .style => { pd with styles := c }
  | .file => { pd with files := c }
  | _ => pd

/-- ensurePath: create an empty record for the urlPath when absent.
Returns the (possibly extended) store together with the record now at the
path. -/
def ensurePath (store : DomainStorage) (p : String) : DomainStorage × PathData :=
  match objGet store.paths p with
  | some pd => (store, pd)
  | none => ({ paths := objSet store.paths p emptyPathData }, emptyPathData)

/-- The VERSION_MISMATCH error built by VFSStorage.writeFile. -/
def writeMismatchError (path : String) (ty : FileType) (name : String)
    (expectedVersion actualVersion : Nat) : VFSError :=
  { code := .VERSION_MISMATCH
    message := "File changed since last read (v" ++ toString expectedVersion ++
      " → v" ++ toString actualVersion ++ "). Re-read required."
    path := path ++ "/" ++ ty.str ++ "s/" ++ name
    expectedVersion := some expectedVersion
    actualVersion := some actualVersion }

/--
VFSStorage.writeFile (storage.ts, route-matching version).  Returns none
when getFileCollection throws (unsupported file type); otherwise the
version-check result is paired with the updated store.  The version check
is the source condition
  expectedVersion !== 0 && existing && existing.version !== expectedVersion
and a successful write stores
  content, version := existing.version + 1 (or 1),
  created := existing.created || now (0 is falsy, so a stored created
  of 0 is replaced by now; a fresh slot gets now), modified := now
with no enabled property (the object literal omits it).
-/
def writeFile (store : DomainStorage) (defaultUrlPath : String) (ty : FileType)
    (name content : String) (expectedVersion : Nat) (urlPath : Option String)
    (now : Nat) : Option (Except VFSError Nat × DomainStorage) :=
  let path := normalizePath (jsOrElse urlPath defaultUrlPath)
  let (store1, pd) := ensurePath store path
  match getFileCollection pd ty with
  | none => none
  | some coll =>
    let mkOk : Nat → Nat → Option (Except VFSError Nat × DomainStorage) := fun v created =>
      let f : StoredFile :=
        { content := content, version := v, created := created, modified := now, enabled := none }
      some (.ok v,
        { paths := objSet store1.paths path (setFileCollection pd ty (objSet coll name f)) })
    match objGet coll name with
    | some existing =>
      if expectedVersion ≠ 0 ∧ existing.version ≠ expectedVersion then
        some (.error (writeMismatchError path ty name expectedVersion existing.version), store1)
      else
        mkOk (existing.version + 1) (jsOrZero existing.created now)
    | none => mkOk 1 now

/-- findMatchingPaths: match the (normalized) url path against every
stored urlPath key, best first. -/
def findMatchingPaths (store : DomainStorage) (urlPath : String) : List RouteMatcher.RouteMatch :=
  RouteMatcher.findMatchingRoutes (normalizePath urlPath) (objKeys store.paths)

/-- Result of readFile; the extracted route parameters are not modeled
(no claim mentions them). -/
structure FileReadResult where
  file : Option StoredFile
  matchedPattern : Option String
deriving Repr, DecidableEq

/--
VFSStorage.readFile: exact match on the normalized path first, else the
best dynamic route match, else no file.  Returns none when
getFileCollection throws.  The ensurePath calls made by the source on the
hit path only perform the files-collection migration, which the typed
model cannot observe, so the store is unchanged and not returned.
-/
def readFile (store : DomainStorage) (defaultUrlPath : String) (ty : FileType)
    (name : String) (urlPath : Option String) : Option FileReadResult :=
  let targetPath := normalizePath (jsOrElse urlPath defaultUrlPath)
  match objGet store.paths targetPath with
  | some pd =>
    match getFileCollection pd ty with
    | none => none
    | some coll => some { file := objGet coll name, matchedPattern := none }
  | none =>
    match findMatchingPaths store targetPath with
    | [] => some { file := none, matchedPattern := none }
    | best :: _ =>
      let pd := (objGet store.paths best.pattern).getD emptyPathData
      match getFileCollection pd ty with
      | none => none
      | some coll => some { file := objGet coll name, matchedPattern := some best.pattern }

/-- getEditRecords: the records stored at the normalized path, or []. -/
def getEditRecords (store : DomainStorage) (urlPath : String) : List EditRecord :=
  match objGet store.paths (normalizePath urlPath) with
  | some pd => pd.editRecords
  | none => []

/-- In-memory screenshot record (storage.ts StoredScreenshot; the format
field is out of scope for every claim but kept for fidelity). -/
structure StoredScreenshot where
  dataUrl : String
  version : Nat
  timestamp : Nat
  isPng : Bool
deriving Repr, DecidableEq

/-- In-memory plan record (storage.ts StoredPlan). -/
structure StoredPlan where
  content : String
  version : Nat
  modified : Nat
deriving Repr, DecidableEq

/-- savePlan error: the source returns a plain code/message object. -/
structure PlanError where
  code : String
  message : String
deriving Repr, DecidableEq

/-- VFSStorage.savePlan on the in-memory plan cache, keyed by
domain ++ ":" ++ normalized urlPath.  Same version rule as writeFile. -/
def savePlan (plans : JsObj StoredPlan) (domain urlPath content : String)
    (expectedVersion now : Nat) : Except PlanError Nat × JsObj StoredPlan :=
  let key := domain ++ ":" ++ normalizePath urlPath
  match objGet plans key with
  | some existing =>
    if expectedVersion ≠ 0 ∧ existing.version ≠ expectedVersion then
      (.error { code := "VERSION_MISMATCH"
                message := "Plan changed since last read (v" ++ toString expectedVersion ++
                  " → v" ++ toString existing.version ++ "). Re-read required." }, plans)
    else
      (.ok (existing.version + 1),
        objSet plans key { content := content, version := existing.version + 1, modified := now })
  | none =>
    (.ok 1, objSet plans key { content := content, version := 1, modified := now })

/-- VFSStorage.getPlan. -/
def getPlan (plans : JsObj StoredPlan) (domain urlPath : String) : Option StoredPlan :=
  objGet plans (domain ++ ":" ++ normalizePath urlPath)

/-- VFSStorage.getScreenshot. -/
def getScreenshot (shots : JsObj StoredScreenshot) (domain urlPath : String) :
    Option StoredScreenshot :=
  objGet shots (domain ++ ":" ++ normalizePath urlPath)

end BrowserCode.VFSStorage

namespace BrowserCode.VirtualFS

open BrowserCode BrowserCode.VFSStorage

/-- collector.ts ParsedPath. -/
structure ParsedPath where
  domain : String
  urlPath : String
  fileType : FileType
  fileName : String
  fullPath : String
deriving Repr, DecidableEq

/-- String startsWith by char-list prefix (executable). -/
def strStartsWith (s : String) (pre : List Char) : Bool :=
  pre.isPrefixOf s.data

/-- VirtualFS.resolvePath: split the base /{domain}{urlPath} into non-empty
components, then fold the relative components: ".." pops, "." and ""
are skipped, anything else is pushed. -/
def resolvePath (domain urlPath rel : String) : String :=
  let base := "/" ++ domain ++ urlPath
  let parts := ((splitOnChar '/' base.data).filter (fun c => c ≠ [])).map (fun c => String.mk c)
  let relParts := jsSplit '/' rel
  let final := relParts.foldl
    (fun acc part =>
      if part = ".." then acc.dropLast
      else if part ≠ "." ∧ part ≠ "" then acc ++ [part]
      else acc)
    parts
  "/" ++ jsJoin '/' final

/-- A script leaf name, the regex ([^\/]+\.js): one or more characters
followed by ".js".  Components produced by splitting on "/" contain no
slash, so only the shape matters. -/
def isJsLeafName (cs : List Char) : Bool :=
  match cs.reverse with
  | 's' :: 'j' :: '.' :: pre => pre ≠ []
  | _ => false

/-- A style leaf name, the regex ([^\/]+\.css). -/
def isCssLeafName (cs : List Char) : Bool :=
  match cs.reverse with
  | 's' :: 's' :: 'c' :: '.' :: pre => pre ≠ []
  | _ => false

/--
The leaf alternation of the parsePath regex, applied to the components
after the domain: the last component must be one of the four fixed names,
or the last two must be "scripts"/name.js or "styles"/name.css.  Returns
the file type and file name on a match.
-/
def leafKind (rest : List (List Char)) : Option (FileType × String) :=
  match rest.reverse with
  | [] => none
  | lastC :: before =>
    let lastS := String.mk lastC
    if lastS = "page.html" then some (.page, "page.html")
    else if lastS = "console.log" then some (.console, "console.log")
    else if lastS = "screenshot.png" then some (.screenshot, "screenshot.png")
    else if lastS = "plan.md" then some (.plan, "plan.md")
    else
      match before with
      | [] => none
      | prev :: _ =>
        if String.mk prev = "scripts" ∧ isJsLeafName lastC then some (.script, lastS)
        else if String.mk prev = "styles" ∧ isCssLeafName lastC then some (.style, lastS)
        else none

/-- The suffix regex of the urlPath computation,
/\/(page\.html|console\.log|screenshot\.png|plan\.md|scripts\/.*|styles\/.*)$/ :
a suffix matches when it is exactly one of the four fixed leaves or starts
with "/scripts/" or "/styles/" (the .* then reaches the end). -/
def isLeafTail (cs : List Char) : Bool :=
  cs = "/page.html".data ∨ cs = "/console.log".data ∨
  cs = "/screenshot.png".data ∨ cs = "/plan.md".data ∨
  "/scripts/".data.isPrefixOf cs ∨ "/styles/".data.isPrefixOf cs

/-- String.replace of that suffix regex with the empty string: cut the
string at the leftmost position whose suffix matches. -/
def stripLeafTail : List Char → List Char
  | [] => []
  | c :: rest => if isLeafTail (c :: rest) then [] else c :: stripLeafTail rest

/--
VirtualFS.parsePath (collector.ts).  Relative paths are resolved against
the active /{domain}{urlPath}; a path without a leading slash is prefixed
with /{domain}{urlPath}/.  The leaf regex recognizes page.html,
console.log, screenshot.png, plan.md, scripts/name.js and
styles/name.css as the final component(s); any other path with a
non-empty first segment parses as a directory with fileType page and an
empty fileName, and anything else (for example "/" or "//x") is null.
-/
def normalizeInput (domain urlPath path : String) : String :=
  let normalized0 :=
    if strStartsWith path ['.', '/'] ∨ strStartsWith path ['.', '.', '/'] then
      resolvePath domain urlPath path
    else path
  if strStartsWith normalized0 ['/'] then normalized0
  else "/" ++ domain ++ urlPath ++ "/" ++ normalized0

def parsePath (domain urlPath path : String) : Option ParsedPath :=
  let normalizedPath := normalizeInput domain urlPath path
  match splitOnChar '/' normalizedPath.data with
  | [] :: d :: rest =>
    if d = [] then none
    else
      match leafKind rest with
      | some (ty, name) =>
        -- urlPath: strip the leading /{domain} (a replace of its first
        -- occurrence, which is at position 0), then cut the leaf suffix.
        let stripped := normalizedPath.data.drop (1 + d.length)
        let partsStr := String.mk (stripLeafTail stripped)
        some { domain := String.mk d
               urlPath := if partsStr = "" then "/" else partsStr
               fileType := ty
               fileName := name
               fullPath := normalizedPath }
      | none =>
        if rest = [] then
          some { domain := String.mk d, urlPath := "/", fileType := .page
                 fileName := "", fullPath := normalizedPath }
        else
          some { domain := String.mk d
                 urlPath := "/" ++ jsJoin '/' (rest.map (fun c => String.mk c))
                 fileType := .page
                 fileName := "", fullPath := normalizedPath }
  | _ => none

/-- Console entry levels (console/collector.ts). -/
inductive LogLevel where
  | log
  | warn
  | error
  | info
  | debug
deriving Repr, DecidableEq

def LogLevel.upper : LogLevel → String
  | .log => "LOG"
  | .warn => "WARN"
  | .error => "ERROR"
  | .info => "INFO"
  | .debug => "DEBUG"

/-- JavaScript s.padEnd(5). -/
def padEnd5 (s : String) : String :=
  s ++ String.mk (List.replicate (5 - s.length) ' ')

structure ConsoleEntry where
  level : LogLevel
  timestamp : Nat
  message : String
deriving Repr, DecidableEq

def pad2 (n : Nat) : String := if n < 10 then "0" ++ toString n else toString n

def pad3 (n : Nat) : String :=
  if n < 10 then "00" ++ toString n
  else if n < 100 then "0" ++ toString n
  else toString n

def pad4 (n : Nat) : String :=
  if n < 10 then "000" ++ toString n
  else if n < 100 then "00" ++ toString n
  else if n < 1000 then "0" ++ toString n
  else toString n

/-- Date.prototype.toISOString for a non-negative epoch-millisecond
timestamp, via the standard civil-from-days computation. -/
def toISOString (ms : Nat) : String :=
  let totalSec := ms / 1000
  let msPart := ms % 1000
  let days := totalSec / 86400
  let rem := totalSec % 86400
  let hh := rem / 3600
  let mi := (rem % 3600) / 60
  let ss := rem % 60
  let z := days + 719468
  let era := z / 146097
  let doe := z % 146097
  let yoe := (doe - doe / 1460 + doe / 36524 - doe / 146096) / 365
  let y := yoe + era * 400
  let doy := doe - (365 * yoe + yoe / 4 - yoe / 100)
  let mp := (5 * doy + 2) / 153
  let d := doy - (153 * mp + 2) / 5 + 1
  let m := if mp < 10 then mp + 3 else mp - 9
  let year := if m ≤ 2 then y + 1 else y
  pad4 year ++ "-" ++ pad2 m ++ "-" ++ pad2 d ++ "T" ++
    pad2 hh ++ ":" ++ pad2 mi ++ ":" ++ pad2 ss ++ "." ++ pad3 msPart ++ "Z"

/-- ConsoleCollector.getLogsAsText: a fixed placeholder if empty,
otherwise one formatted line per entry. -/
def getLogsAsText (logs : List ConsoleEntry) : String :=
  if logs = [] then "// No console logs captured yet\n"
  else jsJoin '\n' (logs.map (fun e =>
    "[" ++ toISOString e.timestamp ++ "] [" ++ padEnd5 e.level.upper ++ "] " ++ e.message))

/-- vfs/types.ts FileContent. -/
structure FileContent where
  content : String
  version : Nat
  lines : Nat
  path : String
deriving Repr, DecidableEq

/--
The offset/limit line windowing shared by every read branch:
  const start = offset || 0;
  const end = limit ? start + limit : undefined;
  content = lines.slice(start, end).join(newline)
applied only when offset or limit is provided.  Note that limit = 0 is
falsy in JavaScript, so a zero limit behaves like an absent one.
-/
def sliceContent (content : String) (offset limit : Option Nat) : String :=
  if offset.isSome ∨ limit.isSome then
    let lines := jsSplit '\n' content
    let start := offset.getD 0
    let stop : Option Nat :=
      match limit with
      | some l => if l = 0 then none else some (start + l)
      | none => none
    jsJoin '\n' (jsSlice lines start stop)
  else content

/-- The number of lines reported by read: content.split(newline).length. -/
def totalLines (content : String) : Nat := (jsSplit '\n' content).length

/--
The whole per-page state visible to the VirtualFS model: the active
location, the persistent domain store, the in-memory plan and screenshot
caches, the console ring, and the page document as seen through
PageSync (its version counter and the formatted DOM serialization that
getFormattedHtml would currently return).
-/
structure VFSState where
  domain : String
  pathname : String
  storage : DomainStorage
  plans : JsObj StoredPlan
  screenshots : JsObj StoredScreenshot
  consoleLogs : List ConsoleEntry
  pageVersion : Nat
  pageFormattedHtml : String
deriving Repr, DecidableEq

/-- The active urlPath: the VirtualFS constructor normalizes
window.location.pathname. -/
def VFSState.urlPath (st : VFSState) : String := normalizePath st.pathname

/-- PageSync.read: the formatted DOM serialization, windowed by
offset/limit, with the page version and the location-derived path. -/
def pageSyncRead (st : VFSState) (offset limit : Option Nat) : FileContent :=
  { content := sliceContent st.pageFormattedHtml offset limit
    version := st.pageVersion
    lines := totalLines st.pageFormattedHtml
    path := "/" ++ st.domain ++ st.pathname ++ "/page.html" }

def invalidPathError (path : String) : VFSError :=
  { code := .INVALID_PATH, message := "Invalid path: " ++ path, path := path }

/--
VirtualFS.read.  Returns none for the unreachable storage-collection
throw; otherwise the FileContent or the VFSError the source returns.
-/
def read (st : VFSState) (path : String) (offset limit : Option Nat) :
    Option (Except VFSError FileContent) :=
  match parsePath st.domain st.urlPath path with
  | none => some (.error (invalidPathError path))
  | some parsed =>
    if parsed.domain ≠ st.domain then
      some (.error { code := .PERMISSION_DENIED
                     message := "Cannot access files from different domain: " ++ parsed.domain
                     path := path })
    else
      match parsed.fileType with
      | .page => some (.ok (pageSyncRead st offset limit))
      | .console =>
        let content := getLogsAsText st.consoleLogs
        some (.ok { content := sliceContent content offset limit
                    version := st.consoleLogs.length
                    lines := totalLines content
                    path := parsed.fullPath })
      | .screenshot =>
        match getScreenshot st.screenshots st.domain parsed.urlPath with
        | none => some (.error { code := .NOT_FOUND
                                 message := "No screenshot available. Use the Screenshot tool to capture one first."
                                 path := path })
        | some s =>
          some (.ok { content := s.dataUrl, version := s.version, lines := 1
                      path := parsed.fullPath })
      | .plan =>
        match getPlan st.plans st.domain parsed.urlPath with
        | none => some (.error { code := .NOT_FOUND
                                 message := "No plan.md file exists yet."
                                 path := path })
        | some plan =>
          some (.ok { content := sliceContent plan.content offset limit
                      version := plan.version
                      lines := totalLines plan.content
                      path := parsed.fullPath })
      | _ =>
        match VFSStorage.readFile st.storage st.urlPath parsed.fileType parsed.fileName
            (some parsed.urlPath) with
        | none => none
        | some rr =>
          match rr.file with
          | none => some (.error { code := .NOT_FOUND
                                   message := "File not found: " ++ path
                                   path := path })
          | some file =>
            some (.ok { content := sliceContent file.content offset limit
                        version := file.version
                        lines := totalLines file.content
                        path := parsed.fullPath })

/-- Outcome of VirtualFS.write.  Writes to page.html delegate to
PageSync.write, whose effect is the browser re-parsing the supplied HTML
into the DOM; that host behavior is outside the model, so the delegation
is recorded symbolically. -/
inductive WriteOut where
  | ok (version : Nat) (st : VFSState)
  | fail (e : VFSError) (st : VFSState)
  | pageDelegate (content : String) (expectedVersion : Nat)
  | thrown
deriving Repr, DecidableEq

/-- The storage dispatch of VirtualFS.write (every file type other than
page and plan goes to VFSStorage.writeFile; a style file is additionally
re-injected into the DOM, which does not touch the modeled state). -/
def writeStorageArm (st : VFSState) (parsed : ParsedPath) (content : String)
    (expectedVersion now : Nat) : WriteOut :=
  match VFSStorage.writeFile st.storage st.urlPath parsed.fileType parsed.fileName
      content expectedVersion (some parsed.urlPath) now with
  | none => .thrown
  | some (.error e, store2) => .fail e { st with storage := store2 }
  | some (.ok v, store2) => .ok v { st with storage := store2 }

/-- VirtualFS.write. -/
def write (st : VFSState) (path content : String) (expectedVersion : Nat) (now : Nat) :
    WriteOut :=
  match parsePath st.domain st.urlPath path with
  | none => .fail (invalidPathError path) st
  | some parsed =>
    if parsed.domain ≠ st.domain then
      .fail { code := .PERMISSION_DENIED
              message := "Cannot write to different domain: " ++ parsed.domain
              path := path } st
    else
      match parsed.fileType with
      | .page => .pageDelegate content expectedVersion
      | .plan =>
        match savePlan st.plans st.domain parsed.urlPath content expectedVersion now with
        | (.error pe, plans2) =>
          .fail { code := .VERSION_MISMATCH
                  message := pe.message
                  path := path
                  expectedVersion := some expectedVersion
                  actualVersion := (getPlan plans2 st.domain parsed.urlPath).map (fun p => p.version) }
            { st with plans := plans2 }
        | (.ok v, plans2) => .ok v { st with plans := plans2 }
      | _ => writeStorageArm st parsed content expectedVersion now

/-- JavaScript content.split(old) for an arbitrary non-empty separator
string, with explicit fuel (one unit per consumed character) so that the
definition is structural and kernel-reducible. -/
def splitOnStrGo (needle : List Char) : List Char → Nat → List (List Char)
  | hay, 0 => [hay]
  | hay, fuel + 1 =>
    match hay with
    | [] => [[]]
    | c :: rest =>
      if needle.isPrefixOf hay then
        [] :: splitOnStrGo needle (hay.drop needle.length) fuel
      else
        match splitOnStrGo needle rest fuel with
        | [] => [[c]]
        | g :: gs => (c :: g) :: gs

/-- JavaScript content.split(old); an empty separator splits into single
characters. -/
def jsSplitOnStr (needle hay : String) : List String :=
  if needle.data = [] then hay.data.map (fun c => String.mk [c])
  else (splitOnStrGo needle.data hay.data hay.data.length).map (fun g => String.mk g)

/-- JavaScript parts.join(sep) for an arbitrary separator string. -/
def jsJoinStr (sep : String) : List String → String
  | [] => ""
  | [x] => x
  | x :: xs => x ++ sep ++ jsJoinStr sep xs

/-- JavaScript content.replace(old, new): replace the first occurrence
(at the leftmost index where old is a prefix of the suffix); with an
empty old string the replacement is prepended. -/
def replaceFirstGo (needle repl : List Char) : List Char → Nat → List Char
  | hay, 0 => hay
  | hay, fuel + 1 =>
    match hay with
    | [] => []
    | c :: rest =>
      if needle.isPrefixOf hay then repl ++ hay.drop needle.length
      else c :: replaceFirstGo needle repl rest fuel

def jsReplaceFirst (needle repl hay : String) : String :=
  if hay.data = [] then
    -- "".replace(old, new) is new when old is empty, else ""
    if needle.data = [] then repl else ""
  else String.mk (replaceFirstGo needle.data repl.data hay.data hay.data.length)

/-- JavaScript content.includes(old): old occurs as a contiguous
substring (always true for an empty old). -/
def strIncludes (needle hay : List Char) : Bool :=
  match hay with
  | [] => needle.isPrefixOf []
  | _ :: rest => needle.isPrefixOf hay ∨ strIncludes needle rest

/-- Outcome of VirtualFS.edit; page.html edits delegate to PageSync.edit
(a DOM walk), recorded symbolically. -/
inductive EditOut where
  | ok (version replacements : Nat) (st : VFSState)
  | fail (e : VFSError) (st : VFSState)
  | pageDelegate (oldString newString : String) (expectedVersion : Nat) (replaceAll : Bool)
  | thrown
deriving Repr, DecidableEq

/-- The storage dispatch of VirtualFS.edit (every file type other than
page): read the current file (with route matching), check version and
presence of the search string, compute the replacement, and write back
through VFSStorage.writeFile at the parsed (concrete) urlPath. -/
def editStorageArm (st : VFSState) (parsed : ParsedPath) (path oldString newString : String)
    (expectedVersion : Nat) (replaceAll : Bool) (now : Nat) : EditOut :=
  match VFSStorage.readFile st.storage st.urlPath parsed.fileType parsed.fileName
      (some parsed.urlPath) with
  | none => .thrown
  | some rr =>
    match rr.file with
    | none => .fail { code := .NOT_FOUND
                      message := "File not found: " ++ path
                      path := path } st
    | some file =>
      if file.version ≠ expectedVersion then
        .fail { code := .VERSION_MISMATCH
                message := "File changed since last read (v" ++ toString expectedVersion ++
                  " → v" ++ toString file.version ++ "). Re-read required."
                path := path
                expectedVersion := some expectedVersion
                actualVersion := some file.version } st
      else if ¬ strIncludes oldString.data file.content.data then
        -- content.includes(oldString)
        .fail { code := .NOT_FOUND
                message := "String not found in file: \"" ++
                  String.mk (oldString.data.take 50) ++ "...\""
                path := path } st
      else
        let pr : String × Nat :=
          if replaceAll then
            let parts := jsSplitOnStr oldString file.content
            (jsJoinStr newString parts, parts.length - 1)
          else
            (jsReplaceFirst oldString newString file.content, 1)
        match VFSStorage.writeFile st.storage st.urlPath parsed.fileType parsed.fileName
            pr.1 expectedVersion (some parsed.urlPath) now with
        | none => .thrown
        | some (.error e, store2) => .fail e { st with storage := store2 }
        | some (.ok v, store2) => .ok v pr.2 { st with storage := store2 }

/-- VirtualFS.edit on the VFS state. -/
def edit (st : VFSState) (path oldString newString : String) (expectedVersion : Nat)
    (replaceAll : Bool) (now : Nat) : EditOut :=
  match parsePath st.domain st.urlPath path with
  | none => .fail (invalidPathError path) st
  | some parsed =>
    if parsed.domain ≠ st.domain then
      .fail { code := .PERMISSION_DENIED
              message := "Cannot edit files from different domain: " ++ parsed.domain
              path := path } st
    else
      match parsed.fileType with
      | .page => .pageDelegate oldString newString expectedVersion replaceAll
      | _ => editStorageArm st parsed path oldString newString expectedVersion replaceAll now

end BrowserCode.VirtualFS

namespace BrowserCode.AgentLoop

/-- The turn cap of the agent loop (part of the background agent module). -/
def MAX_TURNS : Nat := 500

/-- An assistant content block; only the tool_use / non-tool_use
distinction drives the loop. -/
inductive Block where
  | text (s : String)
  | toolUse (id name : String)
deriving Repr, DecidableEq

def Block.isToolUse : Block → Bool
  | .toolUse _ _ => true
  | _ => false

/-- One model response: content blocks and whether stop_reason was
end_turn. -/
structure ApiResponse where
  content : List Block
  stopEndTurn : Bool
deriving Repr

/-- Outcome of one anthropic.messages.create call, as the surrounding
try/catch observes it: a response, an abort (signal aborted or
AbortError), or a transport error message. -/
inductive ApiResult where
  | ok (r : ApiResponse)
  | aborted
  | apiError (msg : String)

/-- The environment of one turn: whether the abort signal is set before
the turn starts, the API outcome, and whether the signal is set before
dispatching the i-th tool call of the turn.  Tool execution results do
not influence control flow (tool failures become tool_result payloads),
so they are not modeled. -/
structure TurnEnv where
  abortedBeforeTurn : Bool
  api : ApiResult
  abortedBeforeTool : Nat → Bool

/-- How a run ends (the terminal callback) and how many LLM calls it
made. -/
structure RunResult where
  errorMsg : Option String
  apiCalls : Nat
deriving Repr, DecidableEq

/--
The while loop of runAgent, with the number of remaining allowed turns
(MAX_TURNS - turns) as the recursion measure.  When the budget is
exhausted the loop falls through to the final onError callback.
-/
def runFrom (env : Nat → TurnEnv) (turnIdx : Nat) : Nat → RunResult
  | 0 => { errorMsg := some ("Agent reached maximum turns (" ++ toString MAX_TURNS ++ ")")
           apiCalls := 0 }
  | remaining + 1 =>
    let te := env turnIdx
    if te.abortedBeforeTurn then { errorMsg := some "Stopped by user", apiCalls := 0 }
    else
      match te.api with
      | .aborted => { errorMsg := some "Stopped by user", apiCalls := 1 }
      | .apiError m => { errorMsg := some m, apiCalls := 1 }
      | .ok r =>
        let toolCalls := r.content.filter Block.isToolUse
        if toolCalls = [] then { errorMsg := none, apiCalls := 1 }
        else if (List.range toolCalls.length).any te.abortedBeforeTool then
          { errorMsg := some "Stopped by user", apiCalls := 1 }
        else if r.stopEndTurn then { errorMsg := none, apiCalls := 1 }
        else
          let rest := runFrom env (turnIdx + 1) remaining
          { errorMsg := rest.errorMsg, apiCalls := rest.apiCalls + 1 }

/-- runAgent: run the loop from turn 0 with the full budget. -/
def runAgentModel (env : Nat → TurnEnv) : RunResult :=
  runFrom env 0 MAX_TURNS

/-- A turn environment that does not end the run: no abort, a successful
API call whose response contains at least one tool_use block, a stop
reason other than end_turn, and no abort during the tool batch. -/
def TurnEnv.Continuing (te : TurnEnv) : Prop :=
  te.abortedBeforeTurn = false ∧
  (∃ r, te.api = .ok r ∧ r.content.filter Block.isToolUse ≠ [] ∧ r.stopEndTurn = false) ∧
  (∀ i, te.abortedBeforeTool i = false)

end BrowserCode.AgentLoop

namespace BrowserCode.UserScriptsSync

open BrowserCode BrowserCode.RouteMatcher

/-- The id sanitization of syncUserScripts: every character outside
[A-Za-z0-9_] becomes an underscore. -/
def sanitizeId (s : String) : String :=
  String.mk (s.data.map (fun c => if isWordChar c then c else '_'))

/-- Match the token \[\.\.\.[\w]+\] at the head of the list; on success
return the remainder after the token.  [\w]+ can only end right before
the closing bracket, so the match is the maximal word run. -/
def catchAllTokenAt (cs : List Char) : Option (List Char) :=
  match cs with
  | '[' :: '.' :: '.' :: '.' :: rest =>
    let run := rest.takeWhile isWordChar
    if run ≠ [] ∧ (rest.drop run.length).head? = some ']' then
      some (rest.drop (run.length + 1))
    else none
  | _ => none

/-- Match the token \[[\w]+\] at the head of the list. -/
def dynTokenAt (cs : List Char) : Option (List Char) :=
  match cs with
  | '[' :: rest =>
    let run := rest.takeWhile isWordChar
    if run ≠ [] ∧ (rest.drop run.length).head? = some ']' then
      some (rest.drop (run.length + 1))
    else none
  | _ => none

/-- A global regex replace of a token with '*': scan left to right,
replacing each non-overlapping occurrence.  Fuel (one unit per consumed
character) keeps the recursion structural. -/
def gsubToken (tok : List Char → Option (List Char)) : List Char → Nat → List Char
  | cs, 0 => cs
  | cs, fuel + 1 =>
    match cs with
    | [] => []
    | c :: rest =>
      match tok cs with
      | some after => '*' :: gsubToken tok after fuel
      | none => c :: gsubToken tok rest fuel

/-- vfsPatternToMatchPattern: replace catch-all and then single-parameter
tokens with wildcards and wrap in the match-pattern template. -/
def vfsPatternToMatchPattern (domain vfsPath : String) : String :=
  let s1 := gsubToken catchAllTokenAt vfsPath.data vfsPath.data.length
  let s2 := gsubToken dynTokenAt s1 s1.length
  "*://" ++ domain ++ String.mk s2 ++ "*"

/-- isDynamicPattern: the regex \[[\w.]+\] matches somewhere in the
path.  The class [\w.] cannot contain the closing bracket, so a match at
a given bracket is again the maximal run. -/
def isDynamicPattern : List Char → Bool
  | [] => false
  | c :: rest =>
    (c = '[' ∧
      (let run := rest.takeWhile (fun c2 => isWordChar c2 ∨ c2 = '.')
       run ≠ [] ∧ (rest.drop run.length).head? = some ']')) ∨
    isDynamicPattern rest

/--
The code string registered for a script.  For a dynamic route the source
wraps the raw script in an IIFE that re-tests location.pathname against
the compiled pattern regex and extracts the parameters; that wrapper is
JavaScript source text for the host to execute, so the model keeps it
symbolic: wrapped records exactly which script body is wrapped with
which pattern.  wrapScriptWithParamExtraction returns the script
unchanged when the pattern has no parameter names.
-/
inductive JsCode where
  | raw (content : String)
  | wrapped (content : String) (urlPattern : String)
deriving Repr, DecidableEq

def wrapScriptWithParamExtraction (script urlPattern : String) : JsCode :=
  if (parseRoutePattern urlPattern).paramNames = [] then .raw script
  else .wrapped script urlPattern

/-- One record handed to userScripts.register.  The source field name
"matches" is a reserved word in Lean, hence matchPatterns. -/
structure Registration where
  id : String
  matchPatterns : List String
  js : List JsCode
  runAt : String
  world : String
deriving Repr, DecidableEq

/--
The pure core of syncUserScripts: from the full storage snapshot
(key → domain data), build the registration list.  Keys not prefixed
"vfs:" are skipped; disabled scripts (enabled === false) are skipped;
every registration is built with runAt document_idle and world MAIN.
-/
def syncRegistrations (allStorage : JsObj DomainStorage) : List Registration :=
  (allStorage.filter (fun kv => strStartsWithVfs kv.1)).flatMap (fun kv =>
    let domain := String.mk (kv.1.data.drop 4)
    kv.2.paths.flatMap (fun pathKv =>
      let urlPath := pathKv.1
      pathKv.2.scripts.filterMap (fun scriptKv =>
        let scriptName := scriptKv.1
        let f := scriptKv.2
        if f.enabled = some false then none
        else
          some { id := sanitizeId ("vfs_" ++ domain ++ "_" ++ urlPath ++ "_" ++ scriptName)
                 matchPatterns := [vfsPatternToMatchPattern domain urlPath]
                 js := [if isDynamicPattern urlPath.data then
                          wrapScriptWithParamExtraction f.content urlPath
                        else .raw f.content]
                 runAt := "document_idle"
                 world := "MAIN" })))
where
  strStartsWithVfs (k : String) : Bool := "vfs:".data.isPrefixOf k.data

end BrowserCode.UserScriptsSync

namespace BrowserCode.VFSStorage

open BrowserCode

/-- The stored file at a (normalized) urlPath, collection and name, if
any.  This is the observable slot that writeFile targets. -/
def storedFileAt (store : DomainStorage) (p : String) (ty : FileType) (name : String) :
    Option StoredFile :=
  match objGet store.paths p with
  | none => none
  | some pd =>
    match getFileCollection pd ty with
    | none => none
    | some coll => objGet coll name

/-- The version of a slot, 0 when no file is stored there (0 is the
"no prior version" value of the protocol). -/
def versionAt (store : DomainStorage) (p : String) (ty : FileType) (name : String) : Nat :=
  match storedFileAt store p ty name with
  | some f => f.version
  | none => 0

/-- The storage kinds for which getFileCollection returns a collection. -/
def SupportedTy (ty : FileType) : Prop := ty = .script ∨ ty = .style ∨ ty = .file

end BrowserCode.VFSStorage

namespace BrowserCode

/-- The file kinds that live in the persistent domain store. -/
def FileType.isStorageKind : FileType → Prop
  | .script => True
  | .style => True
  | .file => True
  | _ => False

end BrowserCode

namespace BrowserCode.VirtualFS

open BrowserCode BrowserCode.VFSStorage

/-- One agent-visible mutating VFS operation (a Write or Edit tool call),
with its timestamp. -/
inductive VOp where
  | write (path content : String) (v now : Nat)
  | edit (path oldString newString : String) (v : Nat) (replaceAll : Bool) (now : Nat)

/-- The state after an operation: successful and failed operations carry
their state; page delegations and storage throws leave the modeled
store untouched. -/
def applyOp (st : VFSState) : VOp → VFSState
  | .write p c v now =>
    match write st p c v now with
    | .ok _ st2 => st2
    | .fail _ st2 => st2
    | _ => st
  | .edit p o n v ra now =>
    match edit st p o n v ra now with
    | .ok _ _ st2 => st2
    | .fail _ st2 => st2
    | _ => st

end BrowserCode.VirtualFS

namespace BrowserCode.RouteMatcher

/-- A match produced by an exact (non-dynamic) pattern: its pattern has
no parameter names.  calculateScore branches on exactly this test. -/
def RouteMatch.IsExact (m : RouteMatch) : Prop :=
  (parseRoutePattern m.pattern).paramNames = []

/-- A match produced by a catch-all pattern. -/
def RouteMatch.IsCatchAllMatch (m : RouteMatch) : Prop :=
  (parseRoutePattern m.pattern).isCatchAll = true

end BrowserCode.RouteMatcher

namespace BrowserCode

/-- A sample stored script file (version 3). -/
def sampleFile3 : StoredFile :=
  { content := "a\nb\nc", version := 3, created := 5, modified := 6, enabled := none }

/-- A sample stored style file (version 2). -/
def sampleStyle2 : StoredFile :=
  { content := "body: x", version := 2, created := 1, modified := 1, enabled := none }

/-- A sample disabled script file. -/
def sampleDisabled : StoredFile :=
  { content := "off", version := 1, created := 2, modified := 2, enabled := some false }

/-- A sample edit record. -/
def sampleRecord : EditRecord :=
  { selector := "#main", oldContent := "x", newContent := "y", timestamp := 3 }

/-- A sample per-path record with scripts, a style, and an edit record. -/
def samplePathData : PathData :=
  { scripts := [("a.js", sampleFile3), ("d.js", sampleDisabled)]
    styles := [("b.css", sampleStyle2)]
    files := []
    editRecords := [sampleRecord] }

/-- A sample domain store with one populated urlPath. -/
def sampleStore : DomainStorage := { paths := [("/p", samplePathData)] }

/-- A sample screenshot. -/
def sampleShot : VFSStorage.StoredScreenshot :=
  { dataUrl := "data:image/png;base64,AA", version := 1, timestamp := 4, isPng := true }

/-- A stored script whose created stamp is 0 (reachable: the disk-sync
writer stores created := file.lastModified verbatim). -/
def sampleZeroCreated : StoredFile :=
  { content := "z", version := 1, created := 0, modified := 0, enabled := none }

/-- A domain store holding only the zero-created script. -/
def sampleZeroStore : DomainStorage :=
  { paths := [("/p", { scripts := [("z.js", sampleZeroCreated)]
                       styles := [], files := [], editRecords := [] })] }

/-- A sample global storage snapshot holding one vfs: domain key. -/
def sampleAllStorage : JsObj DomainStorage := [("vfs:ex.com", sampleStore)]

/-- The single registration the reconciler builds from sampleAllStorage
(a.js is enabled, d.js is disabled and skipped). -/
def sampleRegistration : UserScriptsSync.Registration :=
  { id := "vfs_ex_com__p_a_js"
    matchPatterns := ["*://ex.com/p*"]
    js := [.raw "a\nb\nc"]
    runAt := "document_idle"
    world := "MAIN" }

/-- A sample per-page VFS state on the page https://ex.com/p . -/
def sampleState : VirtualFS.VFSState :=
  { domain := "ex.com"
    pathname := "/p"
    storage := sampleStore
    plans := [("ex.com:/p", { content := "plan body", version := 1, modified := 2 })]
    screenshots := [("ex.com:/p", sampleShot)]
    consoleLogs := []
    pageVersion := 4
    pageFormattedHtml := "<html>\n<body>\nhello\n</body>\n</html>" }

end BrowserCode
namespace BrowserCode.VFSStorage

open BrowserCode

lemma objGet_objSet_self {α : Type} (m : JsObj α) (k : String) (v : α) :
    objGet (objSet m k v) k = some v := by
  induction m with
  | nil => simp [objSet, objGet]
  | cons p rest ih =>
    obtain ⟨k2, v2⟩ := p
    by_cases h : k2 = k
    · subst h
      simp [objSet, objGet]
    · simp [objSet, objGet, h, ih]

lemma objGet_objSet_ne {α : Type} (m : JsObj α) (k : String) (v : α) (k2 : String)
    (h : k2 ≠ k) : objGet (objSet m k v) k2 = objGet m k2 := by
  induction m with
  | nil => simp [objSet, objGet, Ne.symm h]
  | cons p rest ih =>
    obtain ⟨k3, v3⟩ := p
    by_cases h3 : k3 = k
    · subst h3
      simp [objSet, objGet, Ne.symm h]
    · simp [objSet, objGet, h3, ih]

lemma ensurePath_some {store : DomainStorage} {p : String} {pd : PathData}
    (h : objGet store.paths p = some pd) : ensurePath store p = (store, pd) := by
  simp [ensurePath, h]

lemma ensurePath_none {store : DomainStorage} {p : String}
    (h : objGet store.paths p = none) :
    ensurePath store p = ({ paths := objSet store.paths p emptyPathData }, emptyPathData) := by
  simp [ensurePath, h]

lemma getFileCollection_set_ne (pd : PathData) (ty ty2 : FileType) (c : JsObj StoredFile)
    (h : ty2 ≠ ty) :
    getFileCollection (setFileCollection pd ty c) ty2 = getFileCollection pd ty2 := by
  cases ty <;> cases ty2 <;> simp_all [getFileCollection, setFileCollection]

lemma getFileCollection_set_self (pd : PathData) (ty : FileType) (c : JsObj StoredFile)
    (hty : ty = .script ∨ ty = .style ∨ ty = .file) :
    getFileCollection (setFileCollection pd ty c) ty = some c := by
  rcases hty with h | h | h <;> subst h <;> simp [getFileCollection, setFileCollection]

end BrowserCode.VFSStorage
namespace BrowserCode.VFSStorage

open BrowserCode

lemma getFileCollection_isSome_of_supported {pd : PathData} {ty : FileType}
    (hty : SupportedTy ty) : ∃ c, getFileCollection pd ty = some c := by
  rcases hty with h | h | h <;> subst h <;> exact ⟨_, rfl⟩

lemma storedFileAt_eq_some_pd {store : DomainStorage} {p : String} {pd : PathData}
    {ty : FileType} {coll : JsObj StoredFile}
    (hp : objGet store.paths p = some pd) (hc : getFileCollection pd ty = some coll)
    (name : String) : storedFileAt store p ty name = objGet coll name := by
  simp [storedFileAt, hp, hc]

/-- On a version mismatch (a file exists, the expected version is neither
0 nor the current version) writeFile returns the VERSION_MISMATCH error
carrying both versions, and the store is returned unchanged. -/
theorem writeFile_mismatch (store : DomainStorage) (d : String) (ty : FileType)
    (name content : String) (v : Nat) (urlPath : Option String) (now : Nat)
    {f : StoredFile}
    (hf : storedFileAt store (normalizePath (jsOrElse urlPath d)) ty name = some f)
    (hv0 : v ≠ 0) (hvne : f.version ≠ v) :
    writeFile store d ty name content v urlPath now =
      some (.error (writeMismatchError (normalizePath (jsOrElse urlPath d)) ty name v f.version),
            store) := by
  set p := normalizePath (jsOrElse urlPath d) with hp
  rcases hpd : objGet store.paths p with _ | pd
  · simp [storedFileAt, hpd] at hf
  · rcases hcoll : getFileCollection pd ty with _ | coll
    · simp [storedFileAt, hpd, hcoll] at hf
    · have hname : objGet coll name = some f := by
        simpa [storedFileAt, hpd, hcoll] using hf
      simp [writeFile, ← hp, ensurePath_some hpd, hcoll, hname, hv0, hvne]

end BrowserCode.VFSStorage
namespace BrowserCode.VFSStorage

open BrowserCode

lemma supported_of_getFileCollection {pd : PathData} {ty : FileType} {coll : JsObj StoredFile}
    (h : getFileCollection pd ty = some coll) : SupportedTy ty := by
  cases ty <;> simp_all [getFileCollection, SupportedTy]

lemma getFileCollection_empty {ty : FileType} {coll : JsObj StoredFile}
    (h : getFileCollection emptyPathData ty = some coll) : coll = [] := by
  cases ty <;> simp_all [getFileCollection, emptyPathData]

lemma setFileCollection_editRecords (pd : PathData) (ty : FileType) (c : JsObj StoredFile) :
    (setFileCollection pd ty c).editRecords = pd.editRecords := by
  cases ty <;> simp [setFileCollection]

/-- On success, writeFile bumps the slot version (1 for a fresh slot) and
stores the new content with created := existing.created || now (now for
a fresh slot or a falsy stored created of 0) and no enabled flag. -/
theorem writeFile_ok_slot {store : DomainStorage} {d : String} {ty : FileType}
    {name content : String} {v : Nat} {urlPath : Option String} {now : Nat}
    {v2 : Nat} {store2 : DomainStorage}
    (h : writeFile store d ty name content v urlPath now = some (.ok v2, store2)) :
    v2 = versionAt store (normalizePath (jsOrElse urlPath d)) ty name + 1 ∧
    storedFileAt store2 (normalizePath (jsOrElse urlPath d)) ty name =
      some { content := content
             version := v2
             created :=
               match storedFileAt store (normalizePath (jsOrElse urlPath d)) ty name with
               | some f => jsOrZero f.created now
               | none => now
             modified := now
             enabled := none } := by
  set p := normalizePath (jsOrElse urlPath d) with hp
  rcases hpd : objGet store.paths p with _ | pd
  · rcases hcoll : getFileCollection emptyPathData ty with _ | coll
    · simp [writeFile, ← hp, ensurePath_none hpd, hcoll] at h
    · have hsup := supported_of_getFileCollection hcoll
      have hnil := getFileCollection_empty hcoll
      subst hnil
      simp only [writeFile, ← hp, ensurePath_none hpd, hcoll, objGet, Option.some.injEq,
        Prod.mk.injEq, Except.ok.injEq] at h
      obtain ⟨hv, hs⟩ := h
      subst hv
      constructor
      · simp [versionAt, storedFileAt, hpd]
      · simp [← hs, storedFileAt, objGet_objSet_self,
          getFileCollection_set_self _ _ _ hsup, hpd, objSet, objGet]
  · rcases hcoll : getFileCollection pd ty with _ | coll
    · simp [writeFile, ← hp, ensurePath_some hpd, hcoll] at h
    · have hsup := supported_of_getFileCollection hcoll
      rcases hname : objGet coll name with _ | f
      · simp only [writeFile, ← hp, ensurePath_some hpd, hcoll, hname, Option.some.injEq,
          Prod.mk.injEq, Except.ok.injEq] at h
        obtain ⟨hv, hs⟩ := h
        subst hv
        constructor
        · simp [versionAt, storedFileAt, hpd, hcoll, hname]
        · simp [← hs, storedFileAt, objGet_objSet_self,
            getFileCollection_set_self _ _ _ hsup, hpd, hcoll, hname]
      · by_cases hcond : v ≠ 0 ∧ f.version ≠ v
        · simp [writeFile, ← hp, ensurePath_some hpd, hcoll, hname, hcond] at h
        · simp only [writeFile, ← hp, ensurePath_some hpd, hcoll, hname, if_neg hcond,
            Option.some.injEq, Prod.mk.injEq, Except.ok.injEq] at h
          obtain ⟨hv, hs⟩ := h
          subst hv
          constructor
          · simp [versionAt, storedFileAt, hpd, hcoll, hname]
          · simp [← hs, storedFileAt, objGet_objSet_self,
              getFileCollection_set_self _ _ _ hsup, hpd, hcoll, hname]

end BrowserCode.VFSStorage
namespace BrowserCode.VFSStorage

open BrowserCode

lemma objSet_objSet {α : Type} (m : JsObj α) (k : String) (a b : α) :
    objSet (objSet m k a) k b = objSet m k b := by
  induction m with
  | nil => simp [objSet]
  | cons q rest ih =>
    obtain ⟨k2, v2⟩ := q
    by_cases hk : k2 = k
    · subst hk
      simp [objSet]
    · simp [objSet, hk, ih]

/-- A failed writeFile is always a VERSION_MISMATCH against an existing
file, and it leaves the store exactly as it was. -/
theorem writeFile_error_inv {store : DomainStorage} {d : String} {ty : FileType}
    {name content : String} {v : Nat} {urlPath : Option String} {now : Nat}
    {e : VFSError} {store2 : DomainStorage}
    (h : writeFile store d ty name content v urlPath now = some (.error e, store2)) :
    store2 = store ∧
    ∃ f, storedFileAt store (normalizePath (jsOrElse urlPath d)) ty name = some f ∧
      v ≠ 0 ∧ f.version ≠ v ∧
      e = writeMismatchError (normalizePath (jsOrElse urlPath d)) ty name v f.version := by
  set p := normalizePath (jsOrElse urlPath d) with hp
  rcases hpd : objGet store.paths p with _ | pd
  · rcases hcoll : getFileCollection emptyPathData ty with _ | coll
    · simp [writeFile, ← hp, ensurePath_none hpd, hcoll] at h
    · have hnil := getFileCollection_empty hcoll
      subst hnil
      simp [writeFile, ← hp, ensurePath_none hpd, hcoll, objGet] at h
  · rcases hcoll : getFileCollection pd ty with _ | coll
    · simp [writeFile, ← hp, ensurePath_some hpd, hcoll] at h
    · rcases hname : objGet coll name with _ | f
      · simp [writeFile, ← hp, ensurePath_some hpd, hcoll, hname] at h
      · by_cases hcond : v ≠ 0 ∧ f.version ≠ v
        · simp only [writeFile, ← hp, ensurePath_some hpd, hcoll, hname, if_pos hcond,
            Option.some.injEq, Prod.mk.injEq, Except.error.injEq] at h
          obtain ⟨he, hs⟩ := h
          refine ⟨hs.symm, f, ?_, hcond.1, hcond.2, he.symm⟩
          simp [storedFileAt, hpd, hcoll, hname]
        · simp [writeFile, ← hp, ensurePath_some hpd, hcoll, hname, if_neg hcond] at h

/-- writeFile succeeds exactly when the expected version is 0, or there is
no file at the slot, or the expected version equals the current one. -/
theorem writeFile_ok_iff (store : DomainStorage) (d : String) (ty : FileType)
    (name content : String) (v : Nat) (urlPath : Option String) (now : Nat)
    (hsup : SupportedTy ty) :
    (∃ v2 store2, writeFile store d ty name content v urlPath now = some (.ok v2, store2)) ↔
      (v = 0 ∨ storedFileAt store (normalizePath (jsOrElse urlPath d)) ty name = none ∨
        ∃ f, storedFileAt store (normalizePath (jsOrElse urlPath d)) ty name = some f ∧
          f.version = v) := by
  set p := normalizePath (jsOrElse urlPath d) with hp
  rcases hpd : objGet store.paths p with _ | pd
  · obtain ⟨coll, hcoll⟩ := @getFileCollection_isSome_of_supported emptyPathData _ hsup
    have hnil := getFileCollection_empty hcoll
    subst hnil
    constructor
    · intro _
      exact Or.inr (Or.inl (by simp [storedFileAt, hpd]))
    · intro _
      refine ⟨1, DomainStorage.mk (objSet (objSet store.paths p emptyPathData) p
          (setFileCollection emptyPathData ty (objSet ([] : JsObj StoredFile) name
            (StoredFile.mk content 1 now now none)))), ?_⟩
      simp [writeFile, ← hp, ensurePath_none hpd, hcoll, objGet]
  · obtain ⟨coll, hcoll⟩ := @getFileCollection_isSome_of_supported pd _ hsup
    rcases hname : objGet coll name with _ | f
    · constructor
      · intro _
        exact Or.inr (Or.inl (by simp [storedFileAt, hpd, hcoll, hname]))
      · intro _
        refine ⟨1, DomainStorage.mk (objSet store.paths p (setFileCollection pd ty
            (objSet coll name (StoredFile.mk content 1 now now none)))), ?_⟩
        simp [writeFile, ← hp, ensurePath_some hpd, hcoll, hname]
    · have hslot : storedFileAt store p ty name = some f := by
        simp [storedFileAt, hpd, hcoll, hname]
      constructor
      · rintro ⟨v2, store2, h⟩
        by_cases hcond : v ≠ 0 ∧ f.version ≠ v
        · simp [writeFile, ← hp, ensurePath_some hpd, hcoll, hname, if_pos hcond] at h
        · rcases Decidable.not_and_iff_or_not.mp hcond with h0 | hfv
          · exact Or.inl (not_not.mp h0)
          · exact Or.inr (Or.inr ⟨f, hslot, not_not.mp hfv⟩)
      · intro hor
        have hcond : ¬ (v ≠ 0 ∧ f.version ≠ v) := by
          rcases hor with h0 | hnone | ⟨f2, hf2, hv2⟩
          · simp [h0]
          · simp [hslot] at hnone
          · rw [hslot] at hf2
            cases hf2
            simp [hv2]
        refine ⟨f.version + 1, DomainStorage.mk (objSet store.paths p (setFileCollection pd ty
            (objSet coll name
              (StoredFile.mk content (f.version + 1) (jsOrZero f.created now) now none)))), ?_⟩
        simp [writeFile, ← hp, ensurePath_some hpd, hcoll, hname, if_neg hcond]

/-- Whatever writeFile returns, every part of the store other than the
targeted slot is unchanged: other urlPaths entirely, other slots at the
target path, and every edit-record list. -/
theorem writeFile_frame {store : DomainStorage} {d : String} {ty : FileType}
    {name content : String} {v : Nat} {urlPath : Option String} {now : Nat}
    {r : Except VFSError Nat} {store2 : DomainStorage}
    (h : writeFile store d ty name content v urlPath now = some (r, store2)) :
    (∀ q, q ≠ normalizePath (jsOrElse urlPath d) →
      objGet store2.paths q = objGet store.paths q) ∧
    (∀ ty2 name2, ¬ (ty2 = ty ∧ name2 = name) →
      storedFileAt store2 (normalizePath (jsOrElse urlPath d)) ty2 name2 =
        storedFileAt store (normalizePath (jsOrElse urlPath d)) ty2 name2) ∧
    (∀ q, getEditRecords store2 q = getEditRecords store q) := by
  set p := normalizePath (jsOrElse urlPath d) with hp
  have main : ∀ (pd : PathData) (coll : JsObj StoredFile) (f : StoredFile),
      getFileCollection pd ty = some coll →
      store2 = { paths := objSet store.paths p (setFileCollection pd ty (objSet coll name f)) } →
      (objGet store.paths p = some pd ∨ (objGet store.paths p = none ∧ pd = emptyPathData)) →
      (∀ q, q ≠ p → objGet store2.paths q = objGet store.paths q) ∧
      (∀ ty2 name2, ¬ (ty2 = ty ∧ name2 = name) →
        storedFileAt store2 p ty2 name2 = storedFileAt store p ty2 name2) ∧
      (∀ q, getEditRecords store2 q = getEditRecords store q) := by
    intro pd coll f hcoll hs2 hpd
    have hsup := supported_of_getFileCollection hcoll
    have hq : ∀ q, q ≠ p → objGet store2.paths q = objGet store.paths q := by
      intro q hqp
      simp [hs2, objGet_objSet_ne _ _ _ _ hqp]
    have hget2 : objGet store2.paths p = some (setFileCollection pd ty (objSet coll name f)) := by
      simp [hs2, objGet_objSet_self]
    refine ⟨hq, ?_, ?_⟩
    · intro ty2 name2 hne
      by_cases hty2 : ty2 = ty
      · subst hty2
        have hname2 : name2 ≠ name := fun hh => hne ⟨rfl, hh⟩
        rcases hpd with hpd | ⟨hpd, hemp⟩
        · simp [storedFileAt, hget2, hpd, getFileCollection_set_self _ _ _ hsup, hcoll,
            objGet_objSet_ne _ _ _ _ hname2]
        · subst hemp
          have hnil := getFileCollection_empty hcoll
          subst hnil
          simp [storedFileAt, hget2, hpd, getFileCollection_set_self _ _ _ hsup,
            objGet_objSet_ne _ _ _ _ hname2, objGet, Ne.symm hname2]
      · rcases hpd with hpd | ⟨hpd, hemp⟩
        · simp [storedFileAt, hget2, hpd, getFileCollection_set_ne _ _ _ _ hty2]
        · subst hemp
          rcases hcoll2 : getFileCollection emptyPathData ty2 with _ | coll2
          · simp [storedFileAt, hget2, hpd, getFileCollection_set_ne _ _ _ _ hty2, hcoll2]
          · have hnil2 := getFileCollection_empty hcoll2
            subst hnil2
            simp [storedFileAt, hget2, hpd, getFileCollection_set_ne _ _ _ _ hty2, hcoll2,
              objGet]
    · have hrec : ∀ k, (match objGet store2.paths k with
          | some pd2 => pd2.editRecords
          | none => ([] : List EditRecord)) =
          (match objGet store.paths k with
          | some pd2 => pd2.editRecords
          | none => ([] : List EditRecord)) := by
        intro k
        by_cases hk : k = p
        · subst hk
          rcases hpd with hpd | ⟨hpd, hemp⟩
          · simp [hget2, hpd, setFileCollection_editRecords]
          · subst hemp
            simp [hget2, hpd, setFileCollection_editRecords, emptyPathData]
        · rw [hq k hk]
      intro q
      simp only [getEditRecords]
      exact hrec (normalizePath q)
  rcases hpd : objGet store.paths p with _ | pd
  · rcases hcoll : getFileCollection emptyPathData ty with _ | coll
    · simp [writeFile, ← hp, ensurePath_none hpd, hcoll] at h
    · have hnil := getFileCollection_empty hcoll
      subst hnil
      simp only [writeFile, ← hp, ensurePath_none hpd, hcoll, objGet, Option.some.injEq,
        Prod.mk.injEq] at h
      obtain ⟨hr, hs⟩ := h
      exact main emptyPathData [] _ hcoll (by rw [← hs, objSet_objSet]) (Or.inr ⟨hpd, rfl⟩)
  · rcases hcoll : getFileCollection pd ty with _ | coll
    · simp [writeFile, ← hp, ensurePath_some hpd, hcoll] at h
    · rcases hname : objGet coll name with _ | f
      · simp only [writeFile, ← hp, ensurePath_some hpd, hcoll, hname, Option.some.injEq,
          Prod.mk.injEq] at h
        obtain ⟨hr, hs⟩ := h
        exact main pd coll _ hcoll hs.symm (Or.inl hpd)
      · by_cases hcond : v ≠ 0 ∧ f.version ≠ v
        · simp only [writeFile, ← hp, ensurePath_some hpd, hcoll, hname, if_pos hcond,
            Option.some.injEq, Prod.mk.injEq] at h
          obtain ⟨hr, hs⟩ := h
          subst hs
          exact ⟨fun q _ => rfl, fun ty2 name2 _ => rfl, fun q => rfl⟩
        · simp only [writeFile, ← hp, ensurePath_some hpd, hcoll, hname, if_neg hcond,
            Option.some.injEq, Prod.mk.injEq] at h
          obtain ⟨hr, hs⟩ := h
          exact main pd coll _ hcoll hs.symm (Or.inl hpd)

end BrowserCode.VFSStorage
namespace BrowserCode.VFSStorage

open BrowserCode

/--
C1 (amended).  For a persisted script/style slot, Write(p, _, v) succeeds
iff v = 0, or no file exists at the slot, or the current version equals
v; in every other case (v ≠ 0, a file exists, and its version differs) it
fails with a VERSION_MISMATCH error carrying expectedVersion and
actualVersion, leaving the store unchanged.  The claim as frozen demanded
failure when v = 0 and a file exists, and when v ≠ 0 and no file exists;
the code accepts both (see the counterexample).
-/
theorem write_version_gate (store : DomainStorage) (d : String) (ty : FileType)
    (name content : String) (v : Nat) (urlPath : Option String) (now : Nat)
    (hty : ty = .script ∨ ty = .style) :
    ((∃ v2 store2, writeFile store d ty name content v urlPath now = some (.ok v2, store2)) ↔
      (v = 0 ∨ storedFileAt store (normalizePath (jsOrElse urlPath d)) ty name = none ∨
        ∃ f, storedFileAt store (normalizePath (jsOrElse urlPath d)) ty name = some f ∧
          f.version = v)) ∧
    (∀ f, storedFileAt store (normalizePath (jsOrElse urlPath d)) ty name = some f →
      v ≠ 0 → f.version ≠ v →
      writeFile store d ty name content v urlPath now =
        some (.error
          (writeMismatchError (normalizePath (jsOrElse urlPath d)) ty name v f.version),
          store)) := by
  have hsup : SupportedTy ty := by
    rcases hty with h | h <;> subst h <;> simp [SupportedTy]
  refine ⟨writeFile_ok_iff store d ty name content v urlPath now hsup, ?_⟩
  intro f hf h0 hv
  exact writeFile_mismatch store d ty name content v urlPath now hf h0 hv

/--
C1 counterexample.  With a stored script a.js at version 3:
a Write with expectedVersion 0 succeeds (returning version 4) although a
file exists whose version is not 0, and a Write to a non-existent name
with expectedVersion 7 succeeds (returning version 1) although no file
exists and 7 ≠ 0.  The frozen claim requires both to fail with
VERSION_MISMATCH.
-/
theorem write_version_gate_counterexample :
    (∃ store2, writeFile sampleStore "/p" .script "a.js" "x" 0 none 9 =
      some (.ok 4, store2)) ∧
    (∃ store2, writeFile sampleStore "/p" .script "nofile.js" "x" 7 none 9 =
      some (.ok 1, store2)) :=
  ⟨⟨_, rfl⟩, ⟨_, rfl⟩⟩

/-- C1 witness: the gate theorem applied to the sample store, at a
matching version (3, succeeds) and a mismatching one (2, fails with the
error carrying expected 2 and actual 3). -/
theorem write_version_gate_witness :
    (∃ v2 store2, writeFile sampleStore "/p" .script "a.js" "x" 3 none 9 =
      some (.ok v2, store2)) ∧
    writeFile sampleStore "/p" .script "a.js" "x" 2 none 9 =
      some (.error (writeMismatchError "/p" .script "a.js" 2 3), sampleStore) := by
  constructor
  · exact (write_version_gate sampleStore "/p" .script "a.js" "x" 3 none 9
      (Or.inl rfl)).1.mpr (Or.inr (Or.inr ⟨sampleFile3, by decide, by decide⟩))
  · have h := (write_version_gate sampleStore "/p" .script "a.js" "x" 2 none 9
      (Or.inl rfl)).2 sampleFile3 (by decide) (by decide) (by decide)
    simpa using h

/--
C10 (amended).  Whatever writeFile returns, everything except the single
targeted slot is unchanged: all other urlPaths, all other slots at the
target path (other names and other collections), and every edit-record
list; on a successful overwrite the slot is rebuilt with content,
version := previous + 1, created := previous created || now (a stored
created of 0 is falsy and resets to now), modified := now, and no
enabled flag.  The frozen claim fails in two places: a previously
disabled file comes back enabled, and a created stamp of 0 is not
preserved - see the counterexample for both.
-/
theorem write_frame_effect {store : DomainStorage} {d : String} {ty : FileType}
    {name content : String} {v : Nat} {urlPath : Option String} {now : Nat}
    {r : Except VFSError Nat} {store2 : DomainStorage}
    (h : writeFile store d ty name content v urlPath now = some (r, store2)) :
    (∀ q, q ≠ normalizePath (jsOrElse urlPath d) →
      objGet store2.paths q = objGet store.paths q) ∧
    (∀ ty2 name2, ¬ (ty2 = ty ∧ name2 = name) →
      storedFileAt store2 (normalizePath (jsOrElse urlPath d)) ty2 name2 =
        storedFileAt store (normalizePath (jsOrElse urlPath d)) ty2 name2) ∧
    (∀ q, getEditRecords store2 q = getEditRecords store q) ∧
    (∀ v2 f, r = .ok v2 →
      storedFileAt store (normalizePath (jsOrElse urlPath d)) ty name = some f →
      storedFileAt store2 (normalizePath (jsOrElse urlPath d)) ty name =
        some { content := content, version := f.version + 1,
               created := jsOrZero f.created now,
               modified := now, enabled := none }) := by
  obtain ⟨h1, h2, h3⟩ := writeFile_frame h
  refine ⟨h1, h2, h3, ?_⟩
  intro v2 f hr hf
  subst hr
  obtain ⟨hv, hslot⟩ := writeFile_ok_slot h
  rw [hslot, hf]
  have : versionAt store (normalizePath (jsOrElse urlPath d)) ty name = f.version := by
    simp [versionAt, hf]
  rw [hv, this]

/--
C10 counterexample.  Overwriting the disabled script d.js (enabled =
false, version 1) with the matching expected version succeeds and stores
a file whose enabled flag is gone: a field other than content, version
and modified changed, contradicting the frozen claim.  And overwriting
the script z.js whose created stamp is 0 stores created = now (9), not
the prior 0: the created timestamp is not always preserved either.
-/
theorem write_frame_effect_counterexample :
    (∃ store2, writeFile sampleStore "/p" .script "d.js" "x" 1 none 9 =
        some (.ok 2, store2) ∧
      storedFileAt store2 "/p" .script "d.js" =
        some { content := "x", version := 2, created := 2, modified := 9, enabled := none }) ∧
    sampleDisabled.enabled = some false ∧ (none : Option Bool) ≠ some false ∧
    (∃ store2, writeFile sampleZeroStore "/p" .script "z.js" "y" 1 none 9 =
        some (.ok 2, store2) ∧
      storedFileAt store2 "/p" .script "z.js" =
        some { content := "y", version := 2, created := 9, modified := 9, enabled := none }) ∧
    sampleZeroCreated.created = 0 ∧ (9 : Nat) ≠ 0 :=
  ⟨⟨_, rfl, rfl⟩, rfl, by decide, ⟨_, rfl, rfl⟩, rfl, by decide⟩

/-- C10 witness: the frame theorem applied to a successful overwrite of
a.js in the sample store; the other script, the style collection, the
edit records and a foreign path are untouched, and a.js keeps its
created stamp. -/
theorem write_frame_effect_witness :
    ∃ r store2, writeFile sampleStore "/p" .script "a.js" "new" 3 none 9 = some (r, store2) ∧
      objGet store2.paths "/q" = objGet sampleStore.paths "/q" ∧
      storedFileAt store2 "/p" .script "d.js" = storedFileAt sampleStore "/p" .script "d.js" ∧
      storedFileAt store2 "/p" .style "b.css" = storedFileAt sampleStore "/p" .style "b.css" ∧
      getEditRecords store2 "/p" = getEditRecords sampleStore "/p" ∧
      (r = .ok 4 →
        storedFileAt store2 "/p" .script "a.js" =
          some { content := "new", version := 4, created := 5, modified := 9,
                 enabled := none }) := by
  obtain ⟨pr, hw⟩ : ∃ pr, writeFile sampleStore "/p" .script "a.js" "new" 3 none 9 = some pr :=
    ⟨_, rfl⟩
  obtain ⟨r, store2⟩ := pr
  obtain ⟨h1, h2, h3, h4⟩ := write_frame_effect hw
  refine ⟨r, store2, hw, ?_, ?_, ?_, ?_, ?_⟩
  · exact h1 "/q" (by decide)
  · exact h2 .script "d.js" (by simp)
  · exact h2 .style "b.css" (by simp)
  · exact h3 "/p"
  · intro hr
    have := h4 4 sampleFile3 hr (by decide)
    simpa [sampleFile3, jsOrZero] using this

end BrowserCode.VFSStorage
namespace BrowserCode.VirtualFS

open BrowserCode BrowserCode.VFSStorage

/--
C5.  For every call to read, write or edit with a parseable path whose
domain component differs from the active page hostname, the operation
returns a PERMISSION_DENIED error and performs no state change (the
failure carries the state unchanged; read never mutates state).
-/
theorem domain_isolation (st : VFSState) (path : String) (pp : ParsedPath)
    (offset limit : Option Nat) (content oldString newString : String)
    (v now : Nat) (replaceAll : Bool)
    (hpp : parsePath st.domain st.urlPath path = some pp)
    (hdom : pp.domain ≠ st.domain) :
    read st path offset limit =
      some (.error { code := .PERMISSION_DENIED
                     message := "Cannot access files from different domain: " ++ pp.domain
                     path := path }) ∧
    write st path content v now =
      .fail { code := .PERMISSION_DENIED
              message := "Cannot write to different domain: " ++ pp.domain
              path := path } st ∧
    edit st path oldString newString v replaceAll now =
      .fail { code := .PERMISSION_DENIED
              message := "Cannot edit files from different domain: " ++ pp.domain
              path := path } st := by
  refine ⟨?_, ?_, ?_⟩ <;> simp [read, write, edit, hpp, hdom]

/-- C5 witness: reading, writing and editing a path under other.test
from the page at ex.com is denied and leaves the state unchanged. -/
theorem domain_isolation_witness :
    read sampleState "/other.test/p/scripts/a.js" none none =
      some (.error { code := .PERMISSION_DENIED
                     message := "Cannot access files from different domain: other.test"
                     path := "/other.test/p/scripts/a.js" }) ∧
    write sampleState "/other.test/p/scripts/a.js" "x" 1 9 =
      .fail { code := .PERMISSION_DENIED
              message := "Cannot write to different domain: other.test"
              path := "/other.test/p/scripts/a.js" } sampleState ∧
    edit sampleState "/other.test/p/scripts/a.js" "a" "b" 1 false 9 =
      .fail { code := .PERMISSION_DENIED
              message := "Cannot edit files from different domain: other.test"
              path := "/other.test/p/scripts/a.js" } sampleState := by
  have h := domain_isolation sampleState "/other.test/p/scripts/a.js"
    { domain := "other.test", urlPath := "/p", fileType := .script, fileName := "a.js",
      fullPath := "/other.test/p/scripts/a.js" }
    none none "x" "a" "b" 1 9 false (by decide) (by decide)
  exact h

end BrowserCode.VirtualFS
namespace BrowserCode.VirtualFS

open BrowserCode BrowserCode.VFSStorage

lemma savePlan_error_inv {plans : JsObj StoredPlan} {dom up c : String} {v now : Nat}
    {pe : PlanError} {plans2 : JsObj StoredPlan}
    (h : savePlan plans dom up c v now = (.error pe, plans2)) : plans2 = plans := by
  rcases hg : objGet plans (dom ++ ":" ++ normalizePath up) with _ | existing
  · simp [savePlan, hg] at h
  · by_cases hcond : v ≠ 0 ∧ existing.version ≠ v
    · simp only [savePlan, hg, if_pos hcond, Prod.mk.injEq] at h
      exact h.2.symm
    · simp [savePlan, hg, if_neg hcond] at h

/-- For a path that parses to the active domain with a file type that is
neither page nor plan, VirtualFS.write is its storage dispatch. -/
lemma write_eq_storage_arm {st : VFSState} {path : String} {pp : ParsedPath}
    (hpp : parsePath st.domain st.urlPath path = some pp) (hdom : pp.domain = st.domain)
    (hft1 : pp.fileType ≠ FileType.page) (hft2 : pp.fileType ≠ FileType.plan)
    (content : String) (v now : Nat) :
    write st path content v now = writeStorageArm st pp content v now := by
  cases hft : pp.fileType <;> simp [hft] at hft1 hft2 <;>
    simp [write, hpp, hdom, hft]

/-- For a path that parses to the active domain with a non-page file
type, VirtualFS.edit is its storage dispatch. -/
lemma edit_eq_storage_arm {st : VFSState} {path : String} {pp : ParsedPath}
    (hpp : parsePath st.domain st.urlPath path = some pp) (hdom : pp.domain = st.domain)
    (hft1 : pp.fileType ≠ FileType.page)
    (oldString newString : String) (v : Nat) (ra : Bool) (now : Nat) :
    edit st path oldString newString v ra now =
      editStorageArm st pp path oldString newString v ra now := by
  cases hft : pp.fileType <;> simp [hft] at hft1 <;>
    simp [edit, hpp, hdom, hft]

/-- Inversion of a successful VirtualFS.write: the path parsed to the
active domain, and either it was the in-memory plan (persistent storage
untouched) or the write went through VFSStorage.writeFile. -/
lemma write_ok_inv {st : VFSState} {path content : String} {v now v2 : Nat} {st2 : VFSState}
    (h : write st path content v now = .ok v2 st2) :
    ∃ pp, parsePath st.domain st.urlPath path = some pp ∧ pp.domain = st.domain ∧
      ((pp.fileType = .plan ∧ st2.storage = st.storage) ∨
       (pp.fileType ≠ .page ∧ pp.fileType ≠ .plan ∧
         VFSStorage.writeFile st.storage st.urlPath pp.fileType pp.fileName content v
           (some pp.urlPath) now = some (.ok v2, st2.storage))) := by
  rcases hpp : parsePath st.domain st.urlPath path with _ | pp
  · simp [write, hpp] at h
  · by_cases hdom : pp.domain = st.domain
    · refine ⟨pp, rfl, hdom, ?_⟩
      by_cases hft : pp.fileType = FileType.plan
      · left
        refine ⟨hft, ?_⟩
        rcases hsp : savePlan st.plans st.domain pp.urlPath content v now with ⟨res, plans2⟩
        cases res with
        | error pe => simp [write, hpp, hdom, hft, hsp] at h
        | ok vr =>
          simp [write, hpp, hdom, hft, hsp] at h
          rw [← h.2]
      · have hpage : pp.fileType ≠ FileType.page := by
          intro hp
          simp [write, hpp, hdom, hp] at h
        refine Or.inr ⟨hpage, hft, ?_⟩
        rw [write_eq_storage_arm hpp hdom hpage hft content v now] at h
        rcases hw : VFSStorage.writeFile st.storage st.urlPath pp.fileType pp.fileName content v
            (some pp.urlPath) now with _ | ⟨res, store2⟩
        · simp [writeStorageArm, hw] at h
        · cases res with
          | error e => simp [writeStorageArm, hw] at h
          | ok vr =>
            simp only [writeStorageArm, hw, WriteOut.ok.injEq] at h
            obtain ⟨h1, h2⟩ := h
            subst h1
            rw [← h2]
    · simp [write, hpp, hdom] at h

/-- A failed VirtualFS.write carries the state unchanged. -/
lemma write_fail_eq {st : VFSState} {path content : String} {v now : Nat}
    {e : VFSError} {st2 : VFSState}
    (h : write st path content v now = .fail e st2) : st2 = st := by
  rcases hpp : parsePath st.domain st.urlPath path with _ | pp
  · simp [write, hpp] at h
    exact h.2.symm
  · by_cases hdom : pp.domain = st.domain
    · by_cases hft : pp.fileType = FileType.plan
      · rcases hsp : savePlan st.plans st.domain pp.urlPath content v now with ⟨res, plans2⟩
        cases res with
        | error pe =>
          have hpl := savePlan_error_inv hsp
          subst hpl
          simp [write, hpp, hdom, hft, hsp] at h
          rw [← h.2]
        | ok vr => simp [write, hpp, hdom, hft, hsp] at h
      · have hpage : pp.fileType ≠ FileType.page := by
          intro hp
          simp [write, hpp, hdom, hp] at h
        rw [write_eq_storage_arm hpp hdom hpage hft content v now] at h
        rcases hw : VFSStorage.writeFile st.storage st.urlPath pp.fileType pp.fileName content v
            (some pp.urlPath) now with _ | ⟨res, store2⟩
        · simp [writeStorageArm, hw] at h
        · cases res with
          | ok vr => simp [writeStorageArm, hw] at h
          | error e2 =>
            simp only [writeStorageArm, hw, WriteOut.fail.injEq] at h
            obtain ⟨h1, h2⟩ := h
            have := (writeFile_error_inv hw).1
            subst this
            rw [← h2]
    · simp [write, hpp, hdom] at h
      rw [← h.2]

/-- Inversion of a successful VirtualFS.edit: the edit went through
VFSStorage.writeFile with some replacement content and the expected
version. -/
lemma edit_ok_inv {st : VFSState} {path oldStr newStr : String} {v : Nat} {ra : Bool}
    {now v2 reps : Nat} {st2 : VFSState}
    (h : edit st path oldStr newStr v ra now = .ok v2 reps st2) :
    ∃ pp newContent, parsePath st.domain st.urlPath path = some pp ∧ pp.domain = st.domain ∧
      pp.fileType ≠ .page ∧
      VFSStorage.writeFile st.storage st.urlPath pp.fileType pp.fileName newContent v
        (some pp.urlPath) now = some (.ok v2, st2.storage) := by
  rcases hpp : parsePath st.domain st.urlPath path with _ | pp
  · simp [edit, hpp] at h
  · by_cases hdom : pp.domain = st.domain
    · have hpage : pp.fileType ≠ FileType.page := by
        intro hp
        simp [edit, hpp, hdom, hp] at h
      rw [edit_eq_storage_arm hpp hdom hpage oldStr newStr v ra now] at h
      rcases hr : VFSStorage.readFile st.storage st.urlPath pp.fileType pp.fileName
          (some pp.urlPath) with _ | rr
      · simp [editStorageArm, hr] at h
      · rcases hfile : rr.file with _ | file
        · simp [editStorageArm, hr, hfile] at h
        · by_cases hv : file.version ≠ v
          · simp [editStorageArm, hr, hfile, hv] at h
          · by_cases hinc : ¬ strIncludes oldStr.data file.content.data
            · simp [editStorageArm, hr, hfile, hv, hinc] at h
            · cases hra : ra with
              | true =>
                rcases hw : VFSStorage.writeFile st.storage st.urlPath pp.fileType pp.fileName
                    (jsJoinStr newStr (jsSplitOnStr oldStr file.content)) v
                    (some pp.urlPath) now with _ | ⟨res, store2⟩
                · simp [editStorageArm, hr, hfile, hv, hinc, hra, hw] at h
                · cases res with
                  | error e => simp [editStorageArm, hr, hfile, hv, hinc, hra, hw] at h
                  | ok vr =>
                    simp [editStorageArm, hr, hfile, hv, hinc, hra, hw] at h
                    obtain ⟨h1, h2, h3⟩ := h
                    subst h1
                    refine ⟨pp, jsJoinStr newStr (jsSplitOnStr oldStr file.content), rfl,
                      hdom, hpage, ?_⟩
                    rw [← h3]
                    exact hw
              | false =>
                rcases hw : VFSStorage.writeFile st.storage st.urlPath pp.fileType pp.fileName
                    (jsReplaceFirst oldStr newStr file.content) v
                    (some pp.urlPath) now with _ | ⟨res, store2⟩
                · simp [editStorageArm, hr, hfile, hv, hinc, hra, hw] at h
                · cases res with
                  | error e => simp [editStorageArm, hr, hfile, hv, hinc, hra, hw] at h
                  | ok vr =>
                    simp [editStorageArm, hr, hfile, hv, hinc, hra, hw] at h
                    obtain ⟨h1, h2, h3⟩ := h
                    subst h1
                    refine ⟨pp, jsReplaceFirst oldStr newStr file.content, rfl,
                      hdom, hpage, ?_⟩
                    rw [← h3]
                    exact hw
    · simp [edit, hpp, hdom] at h

/-- A failed VirtualFS.edit carries the state unchanged. -/
lemma edit_fail_eq {st : VFSState} {path oldStr newStr : String} {v : Nat} {ra : Bool}
    {now : Nat} {e : VFSError} {st2 : VFSState}
    (h : edit st path oldStr newStr v ra now = .fail e st2) : st2 = st := by
  rcases hpp : parsePath st.domain st.urlPath path with _ | pp
  · simp [edit, hpp] at h
    exact h.2.symm
  · by_cases hdom : pp.domain = st.domain
    · have hpage : pp.fileType ≠ FileType.page := by
        intro hp
        simp [edit, hpp, hdom, hp] at h
      rw [edit_eq_storage_arm hpp hdom hpage oldStr newStr v ra now] at h
      rcases hr : VFSStorage.readFile st.storage st.urlPath pp.fileType pp.fileName
          (some pp.urlPath) with _ | rr
      · simp [editStorageArm, hr] at h
      · rcases hfile : rr.file with _ | file
        · simp [editStorageArm, hr, hfile] at h
          rw [← h.2]
        · by_cases hv : file.version ≠ v
          · simp [editStorageArm, hr, hfile, hv] at h
            rw [← h.2]
          · by_cases hinc : ¬ strIncludes oldStr.data file.content.data
            · simp [editStorageArm, hr, hfile, hv, hinc] at h
              rw [← h.2]
            · cases hra : ra with
              | true =>
                rcases hw : VFSStorage.writeFile st.storage st.urlPath pp.fileType pp.fileName
                    (jsJoinStr newStr (jsSplitOnStr oldStr file.content)) v
                    (some pp.urlPath) now with _ | ⟨res, store2⟩
                · simp [editStorageArm, hr, hfile, hv, hinc, hra, hw] at h
                · cases res with
                  | ok vr => simp [editStorageArm, hr, hfile, hv, hinc, hra, hw] at h
                  | error e2 =>
                    have hse := (writeFile_error_inv hw).1
                    subst hse
                    simp [editStorageArm, hr, hfile, hv, hinc, hra, hw] at h
                    rw [← h.2]
              | false =>
                rcases hw : VFSStorage.writeFile st.storage st.urlPath pp.fileType pp.fileName
                    (jsReplaceFirst oldStr newStr file.content) v
                    (some pp.urlPath) now with _ | ⟨res, store2⟩
                · simp [editStorageArm, hr, hfile, hv, hinc, hra, hw] at h
                · cases res with
                  | ok vr => simp [editStorageArm, hr, hfile, hv, hinc, hra, hw] at h
                  | error e2 =>
                    have hse := (writeFile_error_inv hw).1
                    subst hse
                    simp [editStorageArm, hr, hfile, hv, hinc, hra, hw] at h
                    rw [← h.2]
    · simp [edit, hpp, hdom] at h
      rw [← h.2]

end BrowserCode.VirtualFS
namespace BrowserCode.VirtualFS

open BrowserCode BrowserCode.VFSStorage

lemma storedFileAt_congr {s1 s2 : DomainStorage} {p : String}
    (h : objGet s2.paths p = objGet s1.paths p) (ty : FileType) (nm : String) :
    storedFileAt s2 p ty nm = storedFileAt s1 p ty nm := by
  simp [storedFileAt, h]

/-- One write-back through VFSStorage.writeFile never lowers any slot
version. -/
lemma writeFile_version_mono {st : VFSState} {store2 : DomainStorage} {ty0 : FileType}
    {nm0 c : String} {v0 : Nat} {up : Option String} {now0 v2 : Nat}
    (hw : VFSStorage.writeFile st.storage st.urlPath ty0 nm0 c v0 up now0 =
      some (.ok v2, store2))
    (p : String) (ty : FileType) (nm : String) :
    versionAt st.storage p ty nm ≤ versionAt store2 p ty nm := by
  obtain ⟨hq, hslots, _⟩ := writeFile_frame hw
  by_cases hp : p = normalizePath (jsOrElse up st.urlPath)
  · subst hp
    by_cases hslot : ty = ty0 ∧ nm = nm0
    · obtain ⟨hty, hnm⟩ := hslot
      subst hty hnm
      obtain ⟨hv2, hnew⟩ := writeFile_ok_slot hw
      have h2 : versionAt store2 (normalizePath (jsOrElse up st.urlPath)) ty nm = v2 := by
        simp [versionAt, hnew]
      rw [h2, hv2]
      exact Nat.le_succ _
    · have h2 : versionAt store2 (normalizePath (jsOrElse up st.urlPath)) ty nm =
          versionAt st.storage (normalizePath (jsOrElse up st.urlPath)) ty nm := by
        simp only [versionAt, hslots ty nm hslot]
      rw [h2]
  · have h2 : versionAt store2 p ty nm = versionAt st.storage p ty nm := by
      simp only [versionAt, storedFileAt_congr (hq p hp)]
    rw [h2]

/-- One VFS operation (Write or Edit tool call) never lowers any slot
version of the persistent store. -/
lemma applyOp_version_mono (st : VFSState) (op : VOp) (p : String) (ty : FileType)
    (nm : String) :
    versionAt st.storage p ty nm ≤ versionAt (applyOp st op).storage p ty nm := by
  cases op with
  | write p0 c v0 now0 =>
    cases hw : write st p0 c v0 now0 with
    | ok v2 st2 =>
      simp only [applyOp, hw]
      obtain ⟨pp, hpp, hdom, hcase⟩ := write_ok_inv hw
      rcases hcase with ⟨hft, hst⟩ | ⟨_, _, hwf⟩
      · rw [hst]
      · exact writeFile_version_mono hwf p ty nm
    | fail e st2 =>
      simp only [applyOp, hw]
      rw [write_fail_eq hw]
    | pageDelegate a b => simp [applyOp, hw]
    | thrown => simp [applyOp, hw]
  | edit p0 o n v0 ra now0 =>
    cases hw : edit st p0 o n v0 ra now0 with
    | ok v2 reps st2 =>
      simp only [applyOp, hw]
      obtain ⟨pp, nc, hpp, hdom, hpage, hwf⟩ := edit_ok_inv hw
      exact writeFile_version_mono hwf p ty nm
    | fail e st2 =>
      simp only [applyOp, hw]
      rw [edit_fail_eq hw]
    | pageDelegate a b c2 d2 => simp [applyOp, hw]
    | thrown => simp [applyOp, hw]

/-- Over any operation sequence, slot versions are monotone. -/
lemma foldl_version_mono (ops : List VOp) (st : VFSState) (p : String) (ty : FileType)
    (nm : String) :
    versionAt st.storage p ty nm ≤ versionAt (ops.foldl applyOp st).storage p ty nm := by
  induction ops generalizing st with
  | nil => simp
  | cons op rest ih =>
    exact le_trans (applyOp_version_mono st op p ty nm) (ih (applyOp st op))

/--
C3.  For every persisted file slot: a successful Write or Edit returns
exactly the previous slot version plus 1 (so an initial write returns 1,
since an empty slot counts as version 0) and stores that version; a
failed Write or Edit leaves the whole state unchanged; and over every
operation sequence no slot version ever decreases.
-/
theorem version_discipline (st : VFSState) (path content oldStr newStr : String)
    (v : Nat) (ra : Bool) (now : Nat) (pp : ParsedPath)
    (hpp : parsePath st.domain st.urlPath path = some pp)
    (hk : pp.fileType.isStorageKind) :
    (∀ v2 st2, write st path content v now = .ok v2 st2 →
      v2 = versionAt st.storage (normalizePath (jsOrElse (some pp.urlPath) st.urlPath))
        pp.fileType pp.fileName + 1 ∧
      versionAt st2.storage (normalizePath (jsOrElse (some pp.urlPath) st.urlPath))
        pp.fileType pp.fileName = v2) ∧
    (∀ e st2, write st path content v now = .fail e st2 → st2 = st) ∧
    (∀ v2 reps st2, edit st path oldStr newStr v ra now = .ok v2 reps st2 →
      v2 = versionAt st.storage (normalizePath (jsOrElse (some pp.urlPath) st.urlPath))
        pp.fileType pp.fileName + 1 ∧
      versionAt st2.storage (normalizePath (jsOrElse (some pp.urlPath) st.urlPath))
        pp.fileType pp.fileName = v2) ∧
    (∀ e st2, edit st path oldStr newStr v ra now = .fail e st2 → st2 = st) ∧
    (∀ (ops : List VOp) (st0 : VFSState) (p : String) (ty : FileType) (nm : String),
      versionAt st0.storage p ty nm ≤ versionAt (ops.foldl applyOp st0).storage p ty nm) := by
  refine ⟨?_, ?_, ?_, ?_, ?_⟩
  · intro v2 st2 hw
    obtain ⟨pp2, hpp2, hdom, hcase⟩ := write_ok_inv hw
    rw [hpp] at hpp2
    cases hpp2
    rcases hcase with ⟨hft, _⟩ | ⟨_, _, hwf⟩
    · rw [hft] at hk
      simp [FileType.isStorageKind] at hk
    · obtain ⟨hv2, hnew⟩ := writeFile_ok_slot hwf
      exact ⟨hv2, by rw [versionAt, hnew]⟩
  · intro e st2 hw
    exact write_fail_eq hw
  · intro v2 reps st2 hw
    obtain ⟨pp2, nc, hpp2, hdom, hpage, hwf⟩ := edit_ok_inv hw
    rw [hpp] at hpp2
    cases hpp2
    obtain ⟨hv2, hnew⟩ := writeFile_ok_slot hwf
    exact ⟨hv2, by rw [versionAt, hnew]⟩
  · intro e st2 hw
    exact edit_fail_eq hw
  · exact fun ops st0 p ty nm => foldl_version_mono ops st0 p ty nm

/-- C3 witness: on the sample state, writing the stored script a.js
(version 3) with expectedVersion 3 returns version 4 = 3 + 1 and stores
it. -/
theorem version_discipline_witness :
    versionAt sampleState.storage "/p" FileType.script "a.js" = 3 ∧
    ∃ st2, write sampleState "/ex.com/p/scripts/a.js" "x" 3 9 = WriteOut.ok 4 st2 ∧
      versionAt st2.storage "/p" FileType.script "a.js" = 4 := by
  refine ⟨by decide, ?_⟩
  obtain ⟨st2, hw⟩ : ∃ st2, write sampleState "/ex.com/p/scripts/a.js" "x" 3 9 =
      WriteOut.ok 4 st2 := ⟨_, rfl⟩
  have h := (version_discipline sampleState "/ex.com/p/scripts/a.js" "x" "a" "b" 3 false 9
    { domain := "ex.com", urlPath := "/p", fileType := .script, fileName := "a.js",
      fullPath := "/ex.com/p/scripts/a.js" } (by decide)
    (by simp [FileType.isStorageKind])).1 4 st2 hw
  have e1 : normalizePath (jsOrElse (some "/p") sampleState.urlPath) = "/p" := by decide
  rw [e1] at h
  exact ⟨st2, hw, h.2⟩

end BrowserCode.VirtualFS
namespace BrowserCode.AgentLoop

/-- The loop makes at most one API call per remaining turn. -/
lemma runFrom_apiCalls_le (env : Nat → TurnEnv) (turnIdx remaining : Nat) :
    (runFrom env turnIdx remaining).apiCalls ≤ remaining := by
  induction remaining generalizing turnIdx with
  | zero => simp [runFrom]
  | succ n ih =>
    simp only [runFrom]
    by_cases h1 : (env turnIdx).abortedBeforeTurn
    · simp [h1]
    · simp only [h1]
      cases (env turnIdx).api with
      | aborted => simp
      | apiError m => simp
      | ok r =>
        by_cases h2 : r.content.filter Block.isToolUse = []
        · simp [h2]
        · simp only [h2]
          by_cases h3 : (List.range (r.content.filter Block.isToolUse).length).any
              (env turnIdx).abortedBeforeTool
          · simp [h3]
          · simp only [h3]
            by_cases h4 : r.stopEndTurn
            · simp [h4]
            · simp only [h4]
              have := ih (turnIdx + 1)
              simp only [Bool.false_eq_true, if_false]
              omega

/-- If every turn continues, the loop exhausts its budget, makes exactly
one API call per allowed turn, and ends with the max-turns error. -/
lemma runFrom_exhaust (env : Nat → TurnEnv) (turnIdx remaining : Nat)
    (h : ∀ i, (env i).Continuing) :
    runFrom env turnIdx remaining =
      { errorMsg := some ("Agent reached maximum turns (" ++ toString MAX_TURNS ++ ")")
        apiCalls := remaining } := by
  induction remaining generalizing turnIdx with
  | zero => simp [runFrom]
  | succ n ih =>
    obtain ⟨h1, ⟨r, hapi, htools, hstop⟩, habort⟩ := h turnIdx
    have h3 : (List.range (r.content.filter Block.isToolUse).length).any
        (env turnIdx).abortedBeforeTool = false := by
      simp only [List.any_eq_false]
      intro i _
      simp [habort i]
    simp [runFrom, h1, hapi, htools, hstop, h3, ih (turnIdx + 1)]

/--
C8.  Every agent run makes at most 500 LLM calls (MAX_TURNS = 500, one
call per turn); and whenever no terminating condition occurs in any of
the 500 turns (no abort, no API error, tool calls present, stop reason
not end_turn), the run makes exactly 500 calls and ends by emitting the
"Agent reached maximum turns (500)" error.
-/
theorem agent_turn_cap (env : Nat → TurnEnv) :
    (runAgentModel env).apiCalls ≤ 500 ∧
    ((∀ i, i < 500 → (env i).Continuing) →
      runAgentModel env =
        { errorMsg := some "Agent reached maximum turns (500)", apiCalls := 500 }) := by
  constructor
  · exact runFrom_apiCalls_le env 0 MAX_TURNS
  · intro hcont
    -- the loop only consults turns 0 .. 499, so extend the hypothesis
    -- to all indices via an env that agrees on the consulted range
    have hall : ∀ i, ((fun j => if j < 500 then env j else env 0) i).Continuing := by
      intro i
      by_cases hi : i < 500
      · simpa [hi] using hcont i hi
      · simpa [hi] using hcont 0 (by omega)
    have hagree : ∀ turnIdx remaining, turnIdx + remaining ≤ 500 →
        runFrom env turnIdx remaining =
          runFrom (fun j => if j < 500 then env j else env 0) turnIdx remaining := by
      intro turnIdx remaining
      induction remaining generalizing turnIdx with
      | zero => intro _; simp [runFrom]
      | succ n ih =>
        intro hle
        have hidx : turnIdx < 500 := by omega
        have henv : (fun j => if j < 500 then env j else env 0) turnIdx = env turnIdx := by
          simp [hidx]
        simp only [runFrom, henv]
        rw [ih (turnIdx + 1) (by omega)]
    have := runFrom_exhaust (fun j => if j < 500 then env j else env 0) 0 MAX_TURNS hall
    calc runAgentModel env = runFrom env 0 MAX_TURNS := rfl
      _ = runFrom (fun j => if j < 500 then env j else env 0) 0 MAX_TURNS :=
          hagree 0 MAX_TURNS (by simp [MAX_TURNS])
      _ = { errorMsg := some "Agent reached maximum turns (500)", apiCalls := 500 } := by
          rw [this]; rfl

/-- C8 witness: an environment whose model response always contains a
tool call and never ends the turn runs into the 500-turn cap. -/
theorem agent_turn_cap_witness :
    (runAgentModel (fun _ => { abortedBeforeTurn := false
                               api := .ok { content := [.toolUse "t1" "Read"]
                                            stopEndTurn := false }
                               abortedBeforeTool := fun _ => false })).apiCalls ≤ 500 ∧
    runAgentModel (fun _ => { abortedBeforeTurn := false
                              api := .ok { content := [.toolUse "t1" "Read"]
                                           stopEndTurn := false }
                              abortedBeforeTool := fun _ => false }) =
      { errorMsg := some "Agent reached maximum turns (500)", apiCalls := 500 } := by
  have h := agent_turn_cap (fun _ => { abortedBeforeTurn := false
                                       api := .ok { content := [.toolUse "t1" "Read"]
                                                    stopEndTurn := false }
                                       abortedBeforeTool := fun _ => false })
  exact ⟨h.1, h.2 (fun i _ => ⟨rfl, ⟨_, rfl, by decide, rfl⟩, fun i => rfl⟩)⟩

end BrowserCode.AgentLoop
namespace BrowserCode.UserScriptsSync

/--
C6.  Every registration the reconciler builds comes from an enabled
stored script under a vfs: storage key and carries
runAt = document_idle; but its execution world is the page MAIN world,
not the host brand dedicated user-script world (USER_SCRIPT), so the
world half of the claim diverges from the code.
-/
theorem reconciler_registration (allStorage : JsObj DomainStorage)
    (r : Registration) (hr : r ∈ syncRegistrations allStorage) :
    r.runAt = "document_idle" ∧ r.world = "MAIN" ∧ r.world ≠ "USER_SCRIPT" ∧
    ∃ k d up pd sn f,
      (k, d) ∈ allStorage ∧ "vfs:".data.isPrefixOf k.data ∧
      (up, pd) ∈ d.paths ∧ (sn, f) ∈ pd.scripts ∧ f.enabled ≠ some false ∧
      r = { id := sanitizeId ("vfs_" ++ String.mk (k.data.drop 4) ++ "_" ++ up ++ "_" ++ sn)
            matchPatterns := [vfsPatternToMatchPattern (String.mk (k.data.drop 4)) up]
            js := [if isDynamicPattern up.data then
                     wrapScriptWithParamExtraction f.content up
                   else .raw f.content]
            runAt := "document_idle"
            world := "MAIN" } := by
  simp only [syncRegistrations, List.mem_flatMap, List.mem_filter,
    List.mem_filterMap] at hr
  obtain ⟨⟨k, d⟩, ⟨hkd, hvfs⟩, ⟨up, pd⟩, hup, ⟨sn, f⟩, hsf, hmk⟩ := hr
  by_cases hen : f.enabled = some false
  · simp [hen] at hmk
  · simp only [hen, if_false, Option.some.injEq] at hmk
    subst hmk
    refine ⟨rfl, rfl, ?_, k, d, up, pd, sn, f, hkd, ?_, hup, hsf, hen, rfl⟩
    · intro h; simp at h
    · simpa [syncRegistrations.strStartsWithVfs] using hvfs

/-- C6 witness: on the sample snapshot the reconciler emits the single
registration for the enabled script, with document_idle timing and the
MAIN world. -/
theorem reconciler_registration_witness :
    sampleRegistration.runAt = "document_idle" ∧
    sampleRegistration.world = "MAIN" ∧ sampleRegistration.world ≠ "USER_SCRIPT" ∧
    ∃ k d up pd sn f,
      (k, d) ∈ sampleAllStorage ∧ "vfs:".data.isPrefixOf k.data ∧
      (up, pd) ∈ d.paths ∧ (sn, f) ∈ pd.scripts ∧ f.enabled ≠ some false ∧
      sampleRegistration =
        { id := sanitizeId ("vfs_" ++ String.mk (k.data.drop 4) ++ "_" ++ up ++ "_" ++ sn)
          matchPatterns := [vfsPatternToMatchPattern (String.mk (k.data.drop 4)) up]
          js := [if isDynamicPattern up.data then
                   wrapScriptWithParamExtraction f.content up
                 else .raw f.content]
          runAt := "document_idle"
          world := "MAIN" } :=
  reconciler_registration sampleAllStorage sampleRegistration (by decide)

end BrowserCode.UserScriptsSync
namespace BrowserCode.VirtualFS

open BrowserCode

lemma sliceContent_none_none (c : String) : sliceContent c none none = c := by
  simp [sliceContent]

lemma jsSlice_eq_nil_of_le {α : Type} (xs : List α) (start : Nat) (stop : Option Nat)
    (h : xs.length ≤ start) : jsSlice xs start stop = [] := by
  cases stop with
  | none => simpa [jsSlice] using List.drop_eq_nil_of_le h
  | some e =>
    simp only [jsSlice]
    apply List.drop_eq_nil_of_le
    have : (xs.take e).length ≤ xs.length := by simp [List.length_take]
    omega

lemma sliceContent_offset_ge (c : String) (o : Nat) (l : Option Nat)
    (h : totalLines c ≤ o) : sliceContent c (some o) l = "" := by
  have hnil : jsSlice (jsSplit '\n' c) ((some o : Option Nat).getD 0)
      (match l with
       | some v => if v = 0 then none else some ((some o : Option Nat).getD 0 + v)
       | none => none) = [] :=
    jsSlice_eq_nil_of_le _ _ _ (by simpa [totalLines] using h)
  simp only [sliceContent, Option.isSome_some, true_or, if_true]
  rw [hnil]
  rfl

/-- A windowed success record beside its full-read record: used to
discharge each branch of the read windowing theorem. -/
lemma window_pair (c : String) (v : Nat) (p : String) (offset limit : Option Nat)
    (fc : FileContent)
    (h : fc = { content := sliceContent c none none, version := v
                lines := totalLines c, path := p }) :
    ({ content := sliceContent c offset limit, version := v
       lines := totalLines c, path := p } : FileContent) =
      { fc with content := sliceContent fc.content offset limit } ∧
    ∀ o, fc.lines ≤ o → sliceContent fc.content (some o) limit = "" := by
  subst h
  refine ⟨by simp [sliceContent_none_none], fun o ho => ?_⟩
  have ho2 : totalLines c ≤ o := ho
  show sliceContent (sliceContent c none none) (some o) limit = ""
  rw [sliceContent_none_none]
  exact sliceContent_offset_ge c o limit ho2

/--
C7 (amended).  For every path whose parse is not a screenshot leaf, a
Read that succeeds in full form also succeeds with any offset/limit, the
version, line count and path are unchanged, and the content is the
slice of the full content given by start = offset or 0 and
end = start + limit when limit is present and nonzero (limit = 0 is
falsy in JavaScript and behaves like an absent limit, and screenshot
reads ignore offset/limit entirely -- the two divergences from the
frozen claim); and any offset at or past the line count yields empty
content with no error.
-/
theorem read_line_window (st : VFSState) (path : String) (offset limit : Option Nat)
    (fc : FileContent) (hok : read st path none none = some (.ok fc))
    (hty : ∀ p, parsePath st.domain st.urlPath path = some p →
      p.fileType ≠ FileType.screenshot) :
    read st path offset limit =
      some (.ok { fc with content := sliceContent fc.content offset limit }) ∧
    ∀ o, fc.lines ≤ o → sliceContent fc.content (some o) limit = "" := by
  cases hp : parsePath st.domain st.urlPath path with
  | none => rw [read, hp] at hok; simp [read, hp] at hok
  | some parsed =>
    rw [read, hp] at hok
    rw [read, hp]
    by_cases hdom : parsed.domain = st.domain
    · simp only [ne_eq, hdom, not_true_eq_false, if_false] at hok ⊢
      cases hft : parsed.fileType with
      | page =>
        rw [hft] at hok
        simp only [Option.some.injEq, Except.ok.injEq] at hok
        obtain ⟨h1, h2⟩ := window_pair st.pageFormattedHtml st.pageVersion
          ("/" ++ st.domain ++ st.pathname ++ "/page.html") offset limit fc
          (by rw [← hok]; rfl)
        exact ⟨congrArg (fun r => some (Except.ok r)) h1, h2⟩
      | console =>
        rw [hft] at hok
        simp only [Option.some.injEq, Except.ok.injEq] at hok
        obtain ⟨h1, h2⟩ := window_pair (getLogsAsText st.consoleLogs) st.consoleLogs.length
          parsed.fullPath offset limit fc hok.symm
        exact ⟨congrArg (fun r => some (Except.ok r)) h1, h2⟩
      | screenshot => exact absurd hft (hty parsed hp)
      | plan =>
        rw [hft] at hok
        cases hpl : VFSStorage.getPlan st.plans st.domain parsed.urlPath with
        | none => simp [hpl] at hok
        | some plan =>
          simp only [hpl, Option.some.injEq, Except.ok.injEq] at hok
          obtain ⟨h1, h2⟩ := window_pair plan.content plan.version
            parsed.fullPath offset limit fc hok.symm
          exact ⟨congrArg (fun r => some (Except.ok r)) h1, h2⟩
      | script =>
        rw [hft] at hok
        cases hr : VFSStorage.readFile st.storage st.urlPath FileType.script
            parsed.fileName (some parsed.urlPath) with
        | none => rw [hr] at hok; simp at hok
        | some rr =>
          rw [hr] at hok
          cases hf : rr.file with
          | none => simp [hf] at hok
          | some file =>
            simp only [hf, Option.some.injEq, Except.ok.injEq] at hok
            simp only [hf]
            obtain ⟨h1, h2⟩ := window_pair file.content file.version
              parsed.fullPath offset limit fc hok.symm
            exact ⟨congrArg (fun r => some (Except.ok r)) h1, h2⟩
      | style =>
        rw [hft] at hok
        cases hr : VFSStorage.readFile st.storage st.urlPath FileType.style
            parsed.fileName (some parsed.urlPath) with
        | none => rw [hr] at hok; simp at hok
        | some rr =>
          rw [hr] at hok
          cases hf : rr.file with
          | none => simp [hf] at hok
          | some file =>
            simp only [hf, Option.some.injEq, Except.ok.injEq] at hok
            simp only [hf]
            obtain ⟨h1, h2⟩ := window_pair file.content file.version
              parsed.fullPath offset limit fc hok.symm
            exact ⟨congrArg (fun r => some (Except.ok r)) h1, h2⟩
      | file =>
        rw [hft] at hok
        cases hr : VFSStorage.readFile st.storage st.urlPath FileType.file
            parsed.fileName (some parsed.urlPath) with
        | none => rw [hr] at hok; simp at hok
        | some rr =>
          rw [hr] at hok
          cases hf : rr.file with
          | none => simp [hf] at hok
          | some file =>
            simp only [hf, Option.some.injEq, Except.ok.injEq] at hok
            simp only [hf]
            obtain ⟨h1, h2⟩ := window_pair file.content file.version
              parsed.fullPath offset limit fc hok.symm
            exact ⟨congrArg (fun r => some (Except.ok r)) h1, h2⟩
    · simp only [ne_eq, hdom, not_false_eq_true, if_true] at hok
      simp at hok

/-- C7 witness: reading lines [1, 2) of the 3-line sample script yields
its middle line with version and line count unchanged. -/
theorem read_line_window_witness :
    read sampleState "/ex.com/p/scripts/a.js" (some 1) (some 1) =
      some (.ok { content := "b", version := 3, lines := 3
                  path := "/ex.com/p/scripts/a.js" }) := by
  have h := read_line_window sampleState "/ex.com/p/scripts/a.js" (some 1) (some 1)
    { content := "a\nb\nc", version := 3, lines := 3, path := "/ex.com/p/scripts/a.js" }
    rfl
    (by
      intro p hp
      have h2 : (parsePath sampleState.domain sampleState.urlPath
          "/ex.com/p/scripts/a.js").map ParsedPath.fileType ≠ some FileType.screenshot := by
        decide
      rw [hp] at h2
      simpa using h2)
  rw [h.1]
  rfl

/-- C7 counterexample: Read with offset 0 and limit 0 returns the whole
3-line file (the claim requires the empty range [0, 0)), and a
screenshot read returns the full data URL although the offset is past
its single line (the claim requires empty content for offset at or
beyond the line count). -/
theorem read_line_window_counterexample :
    read sampleState "/ex.com/p/scripts/a.js" (some 0) (some 0) =
      some (.ok { content := "a\nb\nc", version := 3, lines := 3
                  path := "/ex.com/p/scripts/a.js" }) ∧
    read sampleState "/ex.com/p/screenshot.png" (some 5) none =
      some (.ok { content := "data:image/png;base64,AA", version := 1, lines := 1
                  path := "/ex.com/p/screenshot.png" }) ∧
    ("a\nb\nc" : String) ≠ "" ∧ ("data:image/png;base64,AA" : String) ≠ "" :=
  ⟨rfl, rfl, by decide, by decide⟩

end BrowserCode.VirtualFS
namespace BrowserCode.VirtualFS

open BrowserCode

/--
C9 (amended).  An absolute path whose first segment (the domain) is
non-empty and whose remaining components are not one of the recognized
leaves parses as a directory: fileType page and empty fileName; a Read
of such a path then returns the live DOM serialization only when the
path domain equals the active domain, and a PERMISSION_DENIED error
otherwise.  (When the first segment is empty, as in "/" or "//x",
parsePath instead returns null: the dir fallback regex requires a
non-empty first segment.)
-/
theorem parse_dir_fallback (st : VFSState) (path : String) (offset limit : Option Nat)
    (d : List Char) (rest : List (List Char))
    (hsplit : splitOnChar '/' (normalizeInput st.domain st.urlPath path).data =
      [] :: d :: rest)
    (hd : d ≠ []) (hleaf : leafKind rest = none) :
    ∃ p, parsePath st.domain st.urlPath path = some p ∧
      p.fileType = FileType.page ∧ p.fileName = "" ∧ p.domain = String.mk d ∧
      (String.mk d = st.domain →
        read st path offset limit = some (.ok (pageSyncRead st offset limit))) ∧
      (String.mk d ≠ st.domain →
        read st path offset limit =
          some (.error { code := .PERMISSION_DENIED
                         message := "Cannot access files from different domain: " ++
                           String.mk d
                         path := path })) := by
  have hparse : parsePath st.domain st.urlPath path =
      some { domain := String.mk d
             urlPath := if rest = [] then "/"
                        else "/" ++ jsJoin '/' (rest.map (fun c => String.mk c))
             fileType := .page, fileName := ""
             fullPath := normalizeInput st.domain st.urlPath path } := by
    by_cases hrest : rest = []
    · subst hrest
      simp [parsePath, hsplit, hd, hleaf]
    · simp [parsePath, hsplit, hd, hleaf, hrest]
  refine ⟨_, hparse, rfl, rfl, rfl, ?_, ?_⟩
  · intro hdm
    rw [read, hparse]
    simp [hdm]
  · intro hdm
    rw [read, hparse]
    simp [hdm]

/-- C9 witness: the nested script path /ex.com/p/scripts/sub/a.js is not
a leaf (the extra component breaks the scripts/name.js shape), parses as
a page directory, and its same-domain Read is the live DOM read. -/
theorem parse_dir_fallback_witness :
    ∃ p, parsePath sampleState.domain sampleState.urlPath
        "/ex.com/p/scripts/sub/a.js" = some p ∧
      p.fileType = FileType.page ∧ p.fileName = "" ∧
      p.domain = String.mk "ex.com".data ∧
      (String.mk "ex.com".data = sampleState.domain →
        read sampleState "/ex.com/p/scripts/sub/a.js" none none =
          some (.ok (pageSyncRead sampleState none none))) ∧
      (String.mk "ex.com".data ≠ sampleState.domain →
        read sampleState "/ex.com/p/scripts/sub/a.js" none none =
          some (.error { code := .PERMISSION_DENIED
                         message := "Cannot access files from different domain: " ++
                           String.mk "ex.com".data
                         path := "/ex.com/p/scripts/sub/a.js" })) :=
  parse_dir_fallback sampleState "/ex.com/p/scripts/sub/a.js" none none
    "ex.com".data ["p".data, "scripts".data, "sub".data, "a.js".data]
    rfl (by decide) rfl

/-- C9 counterexample: the paths "/" and "//x" have no recognized leaf
yet parse to null, not to a directory result; and a directory path on a
foreign domain reads as PERMISSION_DENIED, not as the live DOM. -/
theorem parse_dir_fallback_counterexample :
    parsePath sampleState.domain sampleState.urlPath "/" = none ∧
    parsePath sampleState.domain sampleState.urlPath "//x" = none ∧
    read sampleState "/other.com/x" none none =
      some (.error { code := .PERMISSION_DENIED
                     message := "Cannot access files from different domain: other.com"
                     path := "/other.com/x" }) :=
  ⟨rfl, rfl, rfl⟩

end BrowserCode.VirtualFS
namespace BrowserCode.RouteMatcher

open BrowserCode

lemma splitOnChar_ne_nil (sep : Char) (cs : List Char) : splitOnChar sep cs ≠ [] := by
  cases cs with
  | nil => simp [splitOnChar]
  | cons c rest =>
    simp only [splitOnChar]
    by_cases hc : c = sep
    · simp [hc]
    · simp only [hc, if_false]
      cases h : splitOnChar sep rest <;> simp

lemma splitOnChar_not_mem (sep : Char) (cs : List Char) :
    ∀ g ∈ splitOnChar sep cs, sep ∉ g := by
  induction cs with
  | nil => intro g hg; simp [splitOnChar] at hg; simp [hg]
  | cons c rest ih =>
    intro g hg
    simp only [splitOnChar] at hg
    by_cases hc : c = sep
    · simp only [hc, if_true] at hg
      rcases List.mem_cons.mp hg with h | h
      · simp [h]
      · exact ih g h
    · simp only [hc, if_false] at hg
      cases hrec : splitOnChar sep rest with
      | nil => exact absurd hrec (splitOnChar_ne_nil sep rest)
      | cons g0 gs =>
        rw [hrec] at hg
        rcases List.mem_cons.mp hg with h | h
        · subst h
          intro hmem
          rcases List.mem_cons.mp hmem with h2 | h2
          · exact hc h2.symm
          · exact ih g0 (hrec ▸ List.mem_cons_self g0 gs) h2
        · exact ih g (hrec ▸ List.mem_cons_of_mem g0 h)

lemma countSlash_drop_le (cs : List Char) (n : Nat) :
    countSlash (cs.drop n) ≤ countSlash cs :=
  List.Sublist.count_le (List.drop_sublist n cs) '/'

/-- Every regex item consumes at least one slash of the url, so a match
bounds the item count by the slash count. -/
lemma matchSegs_length_le (items : List Seg) (os : Bool) (cs : List Char)
    (h : matchSegs items os cs = true) : items.length ≤ countSlash cs := by
  induction items generalizing cs with
  | nil => exact Nat.zero_le _
  | cons seg rest ih =>
    cases cs with
    | nil => simp [matchSegs] at h
    | cons c cs2 =>
      by_cases hc : c = '/'
      · subst hc
        have hcount : countSlash ('/' :: cs2) = countSlash cs2 + 1 := by
          simp [countSlash]
        rw [hcount]
        cases seg with
        | static s =>
          simp [matchSegs] at h
          have := ih (cs2.drop s.data.length) h.2
          have h2 := countSlash_drop_le cs2 s.data.length
          simpa using Nat.add_le_add_right (le_trans this h2) 1
        | dyn name =>
          simp [matchSegs] at h
          obtain ⟨i, _, hi⟩ := h
          have := ih (cs2.drop (i + 1)) hi
          have h2 := countSlash_drop_le cs2 (i + 1)
          simpa using Nat.add_le_add_right (le_trans this h2) 1
        | catchAll name =>
          simp [matchSegs] at h
          obtain ⟨i, _, hi⟩ := h
          have := ih (cs2.drop (i + 1)) hi
          have h2 := countSlash_drop_le cs2 (i + 1)
          simpa using Nat.add_le_add_right (le_trans this h2) 1
      · simp [matchSegs, hc] at h

/-- A match by an all-static slash-free item list consumes the whole url,
so the slash count is at most the item count plus the optional trailing
slash. -/
lemma matchSegs_static_countSlash_le (items : List Seg) (os : Bool) (cs : List Char)
    (hstatic : ∀ s ∈ items, ∃ t : String, s = Seg.static t ∧ ('/' : Char) ∉ t.data)
    (h : matchSegs items os cs = true) : countSlash cs ≤ items.length + 1 := by
  induction items generalizing cs with
  | nil =>
    simp [matchSegs, matchEnd] at h
    rcases h with h | ⟨_, h⟩ <;> simp [h, countSlash]
  | cons seg rest ih =>
    obtain ⟨t, hseg, ht⟩ := hstatic seg (List.mem_cons_self seg rest)
    subst hseg
    cases cs with
    | nil => simp [matchSegs] at h
    | cons c cs2 =>
      by_cases hc : c = '/'
      · subst hc
        simp [matchSegs] at h
        obtain ⟨hpre, hrec⟩ := h
        obtain ⟨r, hr⟩ := hpre
        have hdrop : List.drop t.length cs2 = r := by
          rw [← hr]; exact List.drop_left t.data r
        rw [hdrop] at hrec
        have hrest := ih r (fun s hs => hstatic s (List.mem_cons_of_mem _ hs)) hrec
        have hcs2 : countSlash cs2 = countSlash t.data + countSlash r := by
          rw [← hr, countSlash, countSlash, countSlash, List.count_append]
        have htz : countSlash t.data = 0 := by
          simp [countSlash, List.count_eq_zero]; exact ht
        have hcount : countSlash ('/' :: cs2) = countSlash cs2 + 1 := by
          simp [countSlash]
        rw [hcount, hcs2, htz]
        simp only [List.length_cons]
        omega
      · simp [matchSegs, hc] at h

lemma parseRoutePattern_segs_static (p : String)
    (hex : (parseRoutePattern p).paramNames = []) :
    ∀ s ∈ (parseRoutePattern p).segs, ∃ t : String, s = Seg.static t ∧ ('/' : Char) ∉ t.data := by
  intro s hs
  have hnone := List.filterMap_eq_nil_iff.mp hex
  simp only [parseRoutePattern, List.mem_map] at hs
  obtain ⟨cs, hcs, hclass⟩ := hs
  have hsep : ('/' : Char) ∉ cs :=
    splitOnChar_not_mem '/' p.data cs (List.mem_of_mem_filter hcs)
  rw [← hclass]
  unfold classifySeg
  cases hca : parseCatchAllSeg cs with
  | some n =>
    exfalso
    have hmem : Seg.catchAll n ∈ (parseRoutePattern p).segs := by
      simp only [parseRoutePattern, List.mem_map]
      refine ⟨cs, hcs, ?_⟩
      simp [classifySeg, hca]
    have h2 := hnone _ hmem
    have h3 : some n = (none : Option String) := h2
    exact Option.noConfusion h3
  | none =>
    cases hdy : parseDynSeg cs with
    | some n =>
      exfalso
      have hmem : Seg.dyn n ∈ (parseRoutePattern p).segs := by
        simp only [parseRoutePattern, List.mem_map]
        refine ⟨cs, hcs, ?_⟩
        simp [classifySeg, hca, hdy]
      have h2 := hnone _ hmem
      have h3 : some n = (none : Option String) := h2
      exact Option.noConfusion h3
    | none => exact ⟨String.mk cs, rfl, hsep⟩

lemma parseRoutePattern_items_static (p : String)
    (hex : (parseRoutePattern p).paramNames = []) :
    ∀ s ∈ (parseRoutePattern p).items, ∃ t : String, s = Seg.static t ∧ ('/' : Char) ∉ t.data := by
  intro s hs
  rw [RoutePattern.items] at hs
  by_cases hnil : (parseRoutePattern p).segs = []
  · rw [if_pos hnil] at hs
    rcases List.mem_singleton.mp hs with h
    exact ⟨"", h, by simp⟩
  · rw [if_neg hnil] at hs
    exact parseRoutePattern_segs_static p hex s hs

lemma countP_static_add_dynamic (segs : List Seg) :
    segs.countP Seg.isStatic + segs.countP Seg.isDynamicSeg = segs.length := by
  induction segs with
  | nil => simp
  | cons s rest ih =>
    cases s <;> simp [List.countP_cons, Seg.isStatic, Seg.isDynamicSeg] <;> omega

lemma static_count_eq_length (p : String)
    (hex : (parseRoutePattern p).paramNames = []) :
    (parseRoutePattern p).staticSegmentCount = (parseRoutePattern p).segs.length := by
  have hall := parseRoutePattern_segs_static p hex
  have : (parseRoutePattern p).segs.countP Seg.isStatic = (parseRoutePattern p).segs.length := by
    rw [List.countP_eq_length]
    intro s hs
    obtain ⟨t, hst, _⟩ := hall s hs
    simp [hst, Seg.isStatic]
  calc (parseRoutePattern p).staticSegmentCount
      = (parseRoutePattern p).segs.countP Seg.isStatic := by
        simp [parseRoutePattern]
    _ = (parseRoutePattern p).segs.length := this

lemma calculateScore_exact (rp : RoutePattern) (hex : rp.paramNames = []) :
    calculateScore rp = 1000 + rp.staticSegmentCount * 10 := by
  simp [calculateScore, hex]

lemma calculateScore_dyn_le (p : String) :
    calculateScore (parseRoutePattern p) ≤ 10 * (parseRoutePattern p).segs.length + 1 ∨
    (parseRoutePattern p).paramNames = [] := by
  by_cases hex : (parseRoutePattern p).paramNames = []
  · exact Or.inr hex
  · left
    have hcnt := countP_static_add_dynamic (parseRoutePattern p).segs
    have hs : (parseRoutePattern p).staticSegmentCount =
        (parseRoutePattern p).segs.countP Seg.isStatic := by
      simp [parseRoutePattern]
    have hd : (parseRoutePattern p).dynamicSegmentCount =
        (parseRoutePattern p).segs.countP Seg.isDynamicSeg := by
      simp [parseRoutePattern]
    rw [calculateScore, if_neg hex]
    by_cases hca : (parseRoutePattern p).isCatchAll <;> simp [hca] <;> omega

lemma segs_length_le_items (rp : RoutePattern) :
    rp.segs.length ≤ rp.items.length := by
  rw [RoutePattern.items]
  by_cases h : rp.segs = [] <;> simp [h]

/-- A dynamic pattern that matches a url scores strictly below every
exact pattern that matches the same url. -/
lemma dyn_score_lt_exact (u ps qs : String)
    (hex : (parseRoutePattern ps).paramNames = [])
    (hdyn : (parseRoutePattern qs).paramNames ≠ [])
    (hpm : matchSegs (parseRoutePattern ps).items
      (¬ (parseRoutePattern ps).isCatchAll) u.data = true)
    (hqm : matchSegs (parseRoutePattern qs).items
      (¬ (parseRoutePattern qs).isCatchAll) u.data = true) :
    calculateScore (parseRoutePattern qs) < calculateScore (parseRoutePattern ps) := by
  have hQle : calculateScore (parseRoutePattern qs) ≤
      10 * (parseRoutePattern qs).segs.length + 1 :=
    (calculateScore_dyn_le qs).resolve_right hdyn
  have hQsegs := segs_length_le_items (parseRoutePattern qs)
  have hQitems := matchSegs_length_le _ _ _ hqm
  have hPcount := matchSegs_static_countSlash_le _ _ _
    (parseRoutePattern_items_static ps hex) hpm
  have hPex := calculateScore_exact (parseRoutePattern ps) hex
  by_cases hnil : (parseRoutePattern ps).segs = []
  · have hPitems : (parseRoutePattern ps).items.length = 1 := by
      simp [RoutePattern.items, hnil]
    rw [hPitems] at hPcount
    rw [hPex]
    omega
  · have hPitems : (parseRoutePattern ps).items.length =
        (parseRoutePattern ps).segs.length := by
      simp [RoutePattern.items, hnil]
    have hPstat := static_count_eq_length ps hex
    rw [hPitems] at hPcount
    rw [hPex, hPstat]
    omega

instance : IsTotal RouteMatch scoreGE :=
  ⟨fun a b => le_total b.score a.score⟩

instance : IsTrans RouteMatch scoreGE :=
  ⟨fun _ _ _ hab hbc => le_trans hbc hab⟩

/-- Inversion of membership in the pre-sort match list: the match's
score is the pattern's priority score and the compiled regex matched. -/
lemma matchList_mem (u : String) (S : List String) (m : RouteMatch)
    (h : m ∈ matchList u S) :
    m.pattern ∈ S ∧ m.score = calculateScore (parseRoutePattern m.pattern) ∧
    matchSegs (parseRoutePattern m.pattern).items
      (¬ (parseRoutePattern m.pattern).isCatchAll) u.data = true := by
  simp only [matchList, List.mem_filterMap] at h
  obtain ⟨sp, hsp, hm⟩ := h
  rw [matchRoute] at hm
  by_cases hms : matchSegs (parseRoutePattern sp).items
      (¬ (parseRoutePattern sp).isCatchAll) u.data = true
  · rw [if_pos hms] at hm
    have hm2 := Option.some.inj hm
    have hpat : m.pattern = sp := by rw [← hm2]; rfl
    have hscore : m.score = calculateScore (parseRoutePattern sp) := by rw [← hm2]
    rw [hpat]
    exact ⟨hsp, hscore, hms⟩
  · rw [if_neg hms] at hm
    exact absurd hm (by simp)

lemma filter_orderedInsert_score (s : Nat) (a : RouteMatch) (l : List RouteMatch) :
    (List.orderedInsert scoreGE a l).filter (fun x => x.score = s) =
      if a.score = s then a :: l.filter (fun x => x.score = s)
      else l.filter (fun x => x.score = s) := by
  induction l with
  | nil => by_cases has : a.score = s <;> simp [List.orderedInsert, has]
  | cons b t ih =>
    simp only [List.orderedInsert]
    by_cases hab : scoreGE a b
    · rw [if_pos hab]
      by_cases has : a.score = s <;> simp [has]
    · rw [if_neg hab]
      have hb : a.score < b.score := Nat.lt_of_not_le hab
      by_cases has : a.score = s
      · have hbs : ¬ (b.score = s) := by omega
        simp [List.filter_cons, hbs, ih, has]
      · by_cases hbs : b.score = s <;> simp [List.filter_cons, hbs, ih, has]

/-- Stability of the sort: within each score class the stored order is
preserved. -/
lemma filter_insertionSort_score (s : Nat) (l : List RouteMatch) :
    (List.insertionSort scoreGE l).filter (fun x => x.score = s) =
      l.filter (fun x => x.score = s) := by
  induction l with
  | nil => simp [List.insertionSort]
  | cons a t ih =>
    simp only [List.insertionSort]
    rw [filter_orderedInsert_score]
    by_cases has : a.score = s <;> simp [List.filter_cons, has, ih]

/--
C2 (amended).  findMatchingRoutes returns exactly the matching stored
patterns (a permutation of the pre-sort match list), sorted by
non-increasing priority score; the sort is stable, so matches of equal
score keep their storage insertion order; and every exact pattern (no
parameters) precedes every dynamic pattern.  (The frozen claim further
orders plain dynamic patterns before catch-alls; the code scores a
catch-all by 10 per static segment plus 1, which can exceed a pattern
made of parameter segments only, so that part fails -- see the
counterexample.)
-/
theorem route_sort_order (u : String) (S : List String) :
    (findMatchingRoutes u S).Perm (matchList u S) ∧
    List.Sorted scoreGE (findMatchingRoutes u S) ∧
    (∀ s : Nat, (findMatchingRoutes u S).filter (fun m => m.score = s) =
      (matchList u S).filter (fun m => m.score = s)) ∧
    List.Pairwise (fun a b => (parseRoutePattern b.pattern).paramNames = [] →
      (parseRoutePattern a.pattern).paramNames = []) (findMatchingRoutes u S) := by
  have hperm : (findMatchingRoutes u S).Perm (matchList u S) :=
    List.perm_insertionSort scoreGE (matchList u S)
  have hsorted : List.Sorted scoreGE (findMatchingRoutes u S) :=
    List.sorted_insertionSort scoreGE (matchList u S)
  refine ⟨hperm, hsorted, fun s => filter_insertionSort_score s (matchList u S), ?_⟩
  refine List.Pairwise.imp_of_mem ?_ hsorted
  intro a b ha hb hab hexb
  by_contra hdyna
  have hma := matchList_mem u S a (hperm.mem_iff.mp ha)
  have hmb := matchList_mem u S b (hperm.mem_iff.mp hb)
  have hlt := dyn_score_lt_exact u b.pattern a.pattern hexb hdyna hmb.2.2 hma.2.2
  rw [← hma.2.1, ← hmb.2.1] at hlt
  exact absurd hab (by simp [scoreGE]; omega)

/-- C2 counterexample: on /a/b/c the catch-all /a/b/[...rest] (score 21)
sorts before the all-dynamic /[x]/[y]/[z] (score 15), so dynamic
patterns do not always precede catch-alls. -/
theorem route_sort_order_counterexample :
    findMatchingRoutes "/a/b/c" ["/[x]/[y]/[z]", "/a/b/[...rest]"] =
      [{ pattern := "/a/b/[...rest]", score := 21 },
       { pattern := "/[x]/[y]/[z]", score := 15 }] := by
  rfl

end BrowserCode.RouteMatcher
